import Mathlib

/-!
# Idasen desk controller: conversion, telemetry decoding and the move state machine

A shallow embedding of `app.go`.

* `float64` is modelled exactly: a finite value is the rational it denotes, and
  every arithmetic operation is the exact rational operation followed by
  IEEE 754 binary64 round-to-nearest-even (`roundQ`), with overflow to the
  infinities.  The two zeros are identified; no operation of the program
  tells them apart.
* The Bluetooth stack and the Wails runtime are an environment: `World`
  holds the replies the stack will give, in order, and every call and every
  emitted event is appended to a trace together with the value `IsMoving()`
  would report at that moment.
* Go's multiple return values are tuples, `error` is `Option Err`.
-/

namespace Desk

/-! ## binary64 arithmetic -/

/-- Round a rational to the nearest integer, ties to the even one. -/
def rne (q : ℚ) : ℤ :=
  if q - ⌊q⌋ < 1/2 then ⌊q⌋
  else if 1/2 < q - ⌊q⌋ then ⌊q⌋ + 1
  else if ⌊q⌋ % 2 = 0 then ⌊q⌋ else ⌊q⌋ + 1

/-- Floor of the base-2 logarithm of a natural number, by halving at most
`fuel` times. -/
def log2Fuel : ℕ → ℕ → ℕ
  | 0, _ => 0
  | fuel + 1, n => if 2 ≤ n then log2Fuel fuel (n / 2) + 1 else 0

/-- Floor of the base-2 logarithm of a natural number (0 at 0). -/
def natLog2 (n : ℕ) : ℕ := log2Fuel n n

/-- Floor of the base-2 logarithm of a positive rational. -/
def ilog2 (q : ℚ) : ℤ :=
  let e0 : ℤ := (natLog2 q.num.toNat : ℤ) - (natLog2 q.den : ℤ)
  if q < (2:ℚ)^e0 then e0 - 1 else e0

/-- Spacing of the binary64 grid around a positive rational: 53 significant
bits, with the exponent held at -1022 in the subnormal range. -/
def quantum (q : ℚ) : ℚ := (2:ℚ) ^ (max (ilog2 q) (-1022) - 52)

/-- Nearest-even rounding of a non-negative rational onto the binary64 grid. -/
def roundMag (q : ℚ) : ℚ := (rne (q / quantum q) : ℚ) * quantum q

/-- Nearest-even rounding of a rational onto the binary64 grid (exponent
unbounded above; `F64.ofRat` handles overflow). -/
def roundQ (q : ℚ) : ℚ := if q < 0 then - roundMag (-q) else roundMag q

/-- A `float64` value. -/
inductive F64 where
  | nan
  | pinf
  | ninf
  | fin (q : ℚ)
deriving DecidableEq, Repr

namespace F64

/-- The `float64` nearest to a rational. -/
def ofRat (q : ℚ) : F64 :=
  if (2:ℚ) ^ 1024 ≤ roundQ q then pinf
  else if roundQ q ≤ -(2:ℚ) ^ 1024 then ninf
  else fin (roundQ q)

/-- Conversion `float64(i)` of an integer. -/
def ofInt (i : ℤ) : F64 := ofRat i

/-- A value a `float64` variable can hold: finite values lie on the grid. -/
def IsRep : F64 → Prop
  | fin q => roundQ q = q ∧ |q| < (2:ℚ) ^ 1024
  | _ => True

def neg : F64 → F64
  | nan => nan
  | pinf => ninf
  | ninf => pinf
  | fin q => fin (-q)

def add : F64 → F64 → F64
  | fin a, fin b => ofRat (a + b)
  | nan, _ => nan
  | _, nan => nan
  | pinf, ninf => nan
  | ninf, pinf => nan
  | pinf, _ => pinf
  | _, pinf => pinf
  | ninf, _ => ninf
  | _, ninf => ninf

def sub (x y : F64) : F64 := add x (neg y)

/-- The infinity of the given sign. -/
def infOf (positive : Bool) : F64 := if positive then pinf else ninf

def mul : F64 → F64 → F64
  | fin a, fin b => ofRat (a * b)
  | nan, _ => nan
  | _, nan => nan
  | pinf, pinf => pinf
  | ninf, ninf => pinf
  | pinf, ninf => ninf
  | ninf, pinf => ninf
  | pinf, fin b => if b = 0 then nan else infOf (0 < b)
  | ninf, fin b => if b = 0 then nan else infOf (b < 0)
  | fin a, pinf => if a = 0 then nan else infOf (0 < a)
  | fin a, ninf => if a = 0 then nan else infOf (a < 0)

def div : F64 → F64 → F64
  | fin a, fin b =>
    if b = 0 then (if a = 0 then nan else infOf (0 < a)) else ofRat (a / b)
  | nan, _ => nan
  | _, nan => nan
  | fin _, pinf => fin 0
  | fin _, ninf => fin 0
  | pinf, fin b => infOf (0 ≤ b)
  | ninf, fin b => infOf (b < 0)
  | _, _ => nan

/-- The comparison `x < y`; false when either side is NaN. -/
def lt : F64 → F64 → Bool
  | fin a, fin b => a < b
  | ninf, fin _ => true
  | ninf, pinf => true
  | fin _, pinf => true
  | _, _ => false

/-- The comparison `x == y`; false when either side is NaN. -/
def eq : F64 → F64 → Bool
  | fin a, fin b => a = b
  | pinf, pinf => true
  | ninf, ninf => true
  | _, _ => false

/-- The function `math.Abs`. -/
def abs : F64 → F64
  | nan => nan
  | pinf => pinf
  | ninf => pinf
  | fin q => fin |q|

/-- Conversion `int(x)` to a 64-bit `int`: the fraction is discarded
(truncation toward zero).  For a value outside the range of `int` Go leaves the
result to the implementation; amd64 yields the minimum integer. -/
def toInt : F64 → ℤ
  | fin q =>
    if -(2:ℚ) ^ 63 - 1 < q ∧ q < (2:ℚ) ^ 63 then Int.sign q.num * (|q.num| / q.den)
    else -(2:ℤ) ^ 63
  | _ => -(2:ℤ) ^ 63

end F64

/-! ## Constants -/

def deskNamePrefix : String := "Desk"
def uuidMoveStr : String := "99fa0002-338a-1024-8a49-009c0215f78a"
def uuidHeightStr : String := "99fa0021-338a-1024-8a49-009c0215f78a"
def uuidReferenceInputStr : String := "99fa0031-338a-1024-8a49-009c0215f78a"
/-- Untyped constant `0.62`; it is rounded to `float64` where it meets one. -/
def minHeightMeters : ℚ := 62 / 100
/-- Untyped constant `1.27`. -/
def maxHeightMeters : ℚ := 127 / 100
/-- Untyped constant `10.0`: the step of a manual move, in millimetres. -/
def heightStepMM : ℚ := 10

/-- The `float64` value of the constant `0.62`. -/
def f64Min : ℚ := 5584463537939415 / 9007199254740992
/-- The `float64` value of the constant `1.27`. -/
def f64Max : ℚ := 2859785763380265 / 2251799813685248

abbrev Byte := Fin 256

def cmdWakeup : List Byte := [0xFE, 0x00]
def cmdStop : List Byte := [0xFF, 0x00]

/-! ## Unit conversion -/

def rawToMeters (raw : ℤ) : F64 :=
  F64.add (F64.div (F64.ofInt raw) (F64.ofRat 10000)) (F64.ofRat minHeightMeters)

def metersToRaw (meters : F64) : ℤ :=
  F64.toInt (F64.mul (F64.sub meters (F64.ofRat minHeightMeters)) (F64.ofRat 10000))

/-- Conversion `byte(x)` of an `int`: its low eight bits. -/
def byteOf (x : ℤ) : Byte := Fin.ofNat (x % 256).toNat

/-- The value of a 16-bit pattern read as a two's-complement `int16`. -/
def toInt16 (n : ℕ) : ℤ :=
  if n % 65536 < 32768 then ((n % 65536 : ℕ) : ℤ) else ((n % 65536 : ℕ) : ℤ) - 65536

/-- Position field of a telemetry payload: `int(buf[0]) | int(buf[1])<<8`. -/
def decodeRawHeight (b0 b1 : Byte) : ℤ := ((b0.val ||| (b1.val <<< 8) : ℕ) : ℤ)

/-- Speed field of a telemetry payload: `int16(buf[2]) | int16(buf[3])<<8`,
where the shift wraps within 16 bits. -/
def decodeRawSpeed (b2 b3 : Byte) : ℤ := toInt16 (b2.val ||| ((b3.val <<< 8) % 65536))

/-- The payload written to the reference-input characteristic:
`[]byte{byte(raw), byte(raw >> 8)}`. -/
def referencePayload (raw : ℤ) : List Byte := [byteOf raw, byteOf (raw >>> 8)]

/-! ## Data model -/

inductive LogLevel where
  | info
  | warn
  | error
deriving DecidableEq, Repr

inductive ConnectionStatus where
  | notConnected
  | connected
  | unknown
deriving DecidableEq, Repr

def ConnectionStatus.String : ConnectionStatus → String
  | .connected => "CONNECTED"
  | .notConnected => "NOT_CONNECTED"
  | .unknown => "UNKNOWN"

/-- A `bluetooth.Device` handle; `Device{}` is handle 0. -/
structure Device where
  handle : ℕ
deriving DecidableEq, Repr, Inhabited

/-- A `bluetooth.DeviceCharacteristic`: the text of its UUID and its handle. -/
structure Characteristic where
  uuid : String
  handle : ℕ
deriving DecidableEq, Repr, Inhabited

/-- The error values of the program, one constructor per message; `cause`
is the error wrapped with `%w`. -/
inductive Err where
  | transport (code : ℕ)
  | scanFailed (cause : Err)
  | deskNotFound
  | connectFailed (cause : Err)
  | connect (cause : Err)
  | discoverServices (cause : Err)
  | heightCharacteristicNotFound
  | moveCharacteristicNotFound
  | referenceCharacteristicNotFound
  | readHeight (cause : Err)
  | invalidPayloadLength (n : ℤ)
  | invalidPayload (n : ℤ)
  | outOfRange
  | timeout
deriving DecidableEq, Repr

/-- The messages handed to `emitLog`, with the values they are formatted from. -/
inductive LogMsg where
  | failedToReadHeight (e : Err)
  | moving (up : Bool) (targetMM : F64)
  | targetOutOfRange (targetMM : F64)
  | connectionFailed (e : Err)
  | characteristicsNotFound (e : Err)
  | alreadyAtTarget
  | timeoutNotReached
  | targetReached (targetMM : F64)
  | scanning
  | scanFailed (e : Err)
  | noDeskFound
  | deskFound (name : String)
  | connectedTo (name : String)
deriving DecidableEq, Repr

/-- What the program does to the outside: calls into the Bluetooth stack and
events emitted to the front end. -/
inductive Event where
  | scan
  | stopScan
  | connect (address : ℕ)
  | discoverServices (dev : Device)
  | discoverCharacteristics (dev : Device)
  | read (c : Characteristic)
  | write (c : Characteristic) (data : List Byte)
  | log (level : LogLevel) (msg : LogMsg)
  | height (mm : F64)
  | connection (status : String)
deriving DecidableEq, Repr

/-- Calls into the Bluetooth stack. -/
def Event.isTransport : Event → Bool
  | .log _ _ => false
  | .height _ => false
  | .connection _ => false
  | _ => true

def Event.isWrite : Event → Bool
  | .write _ _ => true
  | _ => false

def Event.isLog : Event → Bool
  | .log _ _ => true
  | _ => false

/-- A trace entry: the event and the value of `isMoving` when it happened. -/
structure Obs where
  moving : Bool
  ev : Event
deriving DecidableEq, Repr

/-- A scan result: advertised name and address. -/
structure Advert where
  localName : String
  address : ℕ
deriving DecidableEq, Repr

/-- A discovered service, with what `DiscoverCharacteristics` returns for it
(nothing when that call fails: its error is dropped by the program). -/
structure Service where
  chars : List Characteristic
deriving DecidableEq, Repr

/-- A reply of `char.Read(buf)` on the 4-byte buffer: the count it reports
and the buffer afterwards. -/
structure ReadReply where
  n : ℤ
  b0 : Byte
  b1 : Byte
  b2 : Byte
  b3 : Byte
deriving DecidableEq, Repr

/-- The environment: the replies the Bluetooth stack gives to the successive
calls of each kind (a call finding its list empty fails), and the number of
ticker events the move loop receives before its deadline. -/
structure World where
  scans : List (Except Err (List Advert))
  connects : List (Except Err Device)
  discoveries : List (Except Err (List Service))
  reads : List (Except Err ReadReply)
  ticks : ℕ

/-- The fields of `App` the program reads and writes under its mutex. -/
structure App where
  desk : Device
  haveDesk : Bool
  isMoving : Bool
deriving DecidableEq, Repr

structure Sys where
  app : App
  world : World
  trace : List Obs

def NewApp : App := { desk := default, haveDesk := false, isMoving := false }

def IsMoving (s : Sys) : Bool := s.app.isMoving

def CheckConnection (s : Sys) : String :=
  if s.app.haveDesk then ConnectionStatus.connected.String
  else ConnectionStatus.notConnected.String

/-! ## Events and transport calls (newest trace entry first) -/

def emit (e : Event) (s : Sys) : Sys :=
  { s with trace := { moving := s.app.isMoving, ev := e } :: s.trace }

def emitLog (level : LogLevel) (msg : LogMsg) (s : Sys) : Sys := emit (.log level msg) s

def emitHeight (heightMM : F64) (s : Sys) : Sys := emit (.height heightMM) s

def emitConnectionStatus (status : String) (s : Sys) : Sys := emit (.connection status) s

def setMoving (b : Bool) (s : Sys) : Sys := { s with app := { s.app with isMoving := b } }

/-- The scan callback over the advertisements delivered: the first one whose
name starts with the desk prefix is kept and stops the scan. -/
def scanCallback : List Advert → Option Advert
  | [] => none
  | res :: rest =>
    if deskNamePrefix.isPrefixOf res.localName then some res else scanCallback rest

def adapterScan (s : Sys) : Except Err (Option Advert) × Sys :=
  let s1 := emit .scan s
  match s1.world.scans with
  | [] => (.error (.transport 0), s1)
  | r :: rest =>
    let s2 := { s1 with world := { s1.world with scans := rest } }
    match r with
    | .error e => (.error e, s2)
    | .ok adverts =>
      match scanCallback adverts with
      | none => (.ok none, s2)
      | some found => (.ok (some found), emit .stopScan s2)

def adapterConnect (address : ℕ) (s : Sys) : Except Err Device × Sys :=
  let s1 := emit (.connect address) s
  match s1.world.connects with
  | [] => (.error (.transport 0), s1)
  | r :: rest => (r, { s1 with world := { s1.world with connects := rest } })

def discoverServices (dev : Device) (s : Sys) : Except Err (List Service) × Sys :=
  let s1 := emit (.discoverServices dev) s
  match s1.world.discoveries with
  | [] => (.error (.transport 0), s1)
  | r :: rest => (r, { s1 with world := { s1.world with discoveries := rest } })

def charRead (c : Characteristic) (s : Sys) : Except Err ReadReply × Sys :=
  let s1 := emit (.read c) s
  match s1.world.reads with
  | [] => (.error (.transport 0), s1)
  | r :: rest => (r, { s1 with world := { s1.world with reads := rest } })

/-- The call `WriteWithoutResponse`; the program drops its result. -/
def charWrite (c : Characteristic) (data : List Byte) (s : Sys) : Sys := emit (.write c data) s

/-! ## Connection manager and endpoint resolution -/

def getOrConnectDesk (s : Sys) : (Device × Option Err) × Sys :=
  if s.app.haveDesk then ((s.app.desk, none), s)
  else
    match adapterScan (emitLog .info .scanning s) with
    | (.error err, s1) =>
      ((default, some (.scanFailed err)),
        emitConnectionStatus ConnectionStatus.notConnected.String
          (emitLog .error (.scanFailed err) s1))
    | (.ok none, s1) =>
      ((default, some .deskNotFound),
        emitConnectionStatus ConnectionStatus.notConnected.String
          (emitLog .warn .noDeskFound s1))
    | (.ok (some found), s1) =>
      match adapterConnect found.address (emitLog .info (.deskFound found.localName) s1) with
      | (.error err, s2) =>
        ((default, some (.connectFailed err)),
          emitConnectionStatus ConnectionStatus.notConnected.String
            (emitLog .error (.connectionFailed err) s2))
      | (.ok dev, s2) =>
        ((dev, none),
          emitConnectionStatus ConnectionStatus.connected.String
            (emitLog .info (.connectedTo found.localName)
              { s2 with app := { s2.app with desk := dev, haveDesk := true } }))

/-- The loop of `findHeightCharacteristic` over the services: the first
characteristic with the height UUID. -/
def heightLoop (dev : Device) : List Service → Sys → Option Characteristic × Sys
  | [], s => (none, s)
  | svc :: rest, s =>
    match svc.chars.find? (fun ch => ch.uuid = uuidHeightStr) with
    | some ch => (some ch, emit (.discoverCharacteristics dev) s)
    | none => heightLoop dev rest (emit (.discoverCharacteristics dev) s)

def findHeightCharacteristic (dev : Device) (s : Sys) : (Characteristic × Option Err) × Sys :=
  match discoverServices dev s with
  | (.error err, s1) => ((default, some (.discoverServices err)), s1)
  | (.ok services, s1) =>
    match heightLoop dev services s1 with
    | (some ch, s2) => ((ch, none), s2)
    | (none, s2) => ((default, some .heightCharacteristicNotFound), s2)

/-- The variables of `findMoveCharacteristics`. -/
structure MoveScan where
  cmdChar : Characteristic
  refChar : Characteristic
  foundCmd : Bool
  foundRef : Bool

/-- One characteristic seen by the inner loop of `findMoveCharacteristics`. -/
def moveScanStep (m : MoveScan) (ch : Characteristic) : MoveScan :=
  let m1 := if ch.uuid = uuidMoveStr then { m with cmdChar := ch, foundCmd := true } else m
  if ch.uuid = uuidReferenceInputStr then { m1 with refChar := ch, foundRef := true } else m1

/-- The loop of `findMoveCharacteristics` over the services; it visits them all. -/
def moveLoop (dev : Device) : List Service → MoveScan → Sys → MoveScan × Sys
  | [], m, s => (m, s)
  | svc :: rest, m, s =>
    moveLoop dev rest (svc.chars.foldl moveScanStep m) (emit (.discoverCharacteristics dev) s)

def findMoveCharacteristics (dev : Device) (s : Sys) :
    (Characteristic × Characteristic × Option Err) × Sys :=
  match discoverServices dev s with
  | (.error err, s1) => ((default, default, some (.discoverServices err)), s1)
  | (.ok services, s1) =>
    match moveLoop dev services
        { cmdChar := default, refChar := default, foundCmd := false, foundRef := false } s1 with
    | (m, s2) =>
      if !m.foundCmd then ((default, default, some .moveCharacteristicNotFound), s2)
      else if !m.foundRef then ((default, default, some .referenceCharacteristicNotFound), s2)
      else ((m.cmdChar, m.refChar, none), s2)

/-! ## Telemetry reader -/

def GetHeight (s : Sys) : (F64 × Option Err) × Sys :=
  match getOrConnectDesk s with
  | ((_, some err), s1) => ((F64.fin 0, some err), s1)
  | ((dev, none), s1) =>
    match findHeightCharacteristic dev s1 with
    | ((_, some err), s2) => ((F64.fin 0, some err), s2)
    | ((char, none), s2) =>
      match charRead char s2 with
      | (.error err, s3) => ((F64.fin 0, some err), s3)
      | (.ok reply, s3) =>
        if reply.n < 2 then ((F64.fin 0, some (.invalidPayloadLength reply.n)), s3)
        else
          ((F64.mul (rawToMeters (decodeRawHeight reply.b0 reply.b1)) (F64.ofRat 1000), none), s3)

def getHeightAndSpeed (s : Sys) : (F64 × F64 × Option Err) × Sys :=
  match getOrConnectDesk s with
  | ((_, some err), s1) => ((F64.fin 0, F64.fin 0, some err), s1)
  | ((dev, none), s1) =>
    match findHeightCharacteristic dev s1 with
    | ((_, some err), s2) => ((F64.fin 0, F64.fin 0, some err), s2)
    | ((char, none), s2) =>
      match charRead char s2 with
      | (.error err, s3) => ((F64.fin 0, F64.fin 0, some (.readHeight err)), s3)
      | (.ok reply, s3) =>
        if reply.n < 4 then ((F64.fin 0, F64.fin 0, some (.invalidPayload reply.n)), s3)
        else
          ((rawToMeters (decodeRawHeight reply.b0 reply.b1),
            F64.div (F64.ofInt (decodeRawSpeed reply.b2 reply.b3)) (F64.ofRat 10000), none), s3)

/-! ## Move controller -/

/-- The arrival test of the move loop: `speed == 0 && math.Abs(current-target) < 0.003`. -/
def arrived (currentMeters speed targetMeters : F64) : Bool :=
  F64.eq speed (F64.fin 0) &&
    F64.lt (F64.abs (F64.sub currentMeters targetMeters)) (F64.ofRat (3 / 1000))

/-- The move loop of `MoveToHeight`, for the given number of ticker events
before the deadline event. -/
def pollLoop (refChar : Characteristic) (payload : List Byte) (targetMeters targetMM : F64) :
    ℕ → Sys → Option Err × Sys
  | 0, s => (some .timeout, emitLog .error .timeoutNotReached s)
  | n + 1, s =>
    match getHeightAndSpeed (charWrite refChar payload s) with
    | ((_, _, some _), s1) => pollLoop refChar payload targetMeters targetMM n s1
    | ((currentMeters, speed, none), s1) =>
      if arrived currentMeters speed targetMeters then
        (none, emitLog .info (.targetReached targetMM)
          (emitHeight (F64.mul currentMeters (F64.ofRat 1000)) s1))
      else
        pollLoop refChar payload targetMeters targetMM n
          (emitHeight (F64.mul currentMeters (F64.ofRat 1000)) s1)

/-- The range test of `MoveToHeight`. -/
def outOfRange (targetMeters : F64) : Bool :=
  F64.lt targetMeters (F64.ofRat minHeightMeters) ||
    F64.lt (F64.ofRat maxHeightMeters) targetMeters

/-- The part of `MoveToHeight` from "Mark as moving" on; the deferred reset
of `isMoving` runs when the loop returns. -/
def commandAndPoll (cmdChar refChar : Characteristic) (targetMeters targetMM : F64) (s : Sys) :
    Option Err × Sys :=
  match pollLoop refChar (referencePayload (metersToRaw targetMeters)) targetMeters targetMM
      s.world.ticks
      (charWrite cmdChar cmdStop (charWrite cmdChar cmdWakeup (setMoving true s))) with
  | (r, s1) => (r, setMoving false s1)

def MoveToHeight (targetMM : F64) (s : Sys) : Option Err × Sys :=
  if outOfRange (F64.div targetMM (F64.ofRat 1000)) then
    (some .outOfRange, emitLog .error (.targetOutOfRange targetMM) s)
  else
    match getOrConnectDesk s with
    | ((_, some err), s1) => (some (.connect err), emitLog .error (.connectionFailed err) s1)
    | ((dev, none), s1) =>
      match findMoveCharacteristics dev s1 with
      | ((_, _, some err), s2) => (some err, emitLog .error (.characteristicsNotFound err) s2)
      | ((cmdChar, refChar, none), s2) =>
        match getHeightAndSpeed s2 with
        | ((currentMeters, _, err), s3) =>
          if err.isNone &&
              F64.lt (F64.abs (F64.sub currentMeters (F64.div targetMM (F64.ofRat 1000))))
                (F64.ofRat (2 / 1000)) then
            (none, emitLog .info .alreadyAtTarget s3)
          else
            commandAndPoll cmdChar refChar (F64.div targetMM (F64.ofRat 1000)) targetMM s3

/-- The target computed by `MoveByStep` from the height read: one step up or
down, clamped to the range; `minHeightMeters * 1000` and `maxHeightMeters * 1000`
are constant expressions, evaluated exactly before conversion. -/
def stepTarget (currentMM : F64) (up : Bool) : F64 :=
  let targetMM :=
    if up then F64.add currentMM (F64.ofRat heightStepMM)
    else F64.sub currentMM (F64.ofRat heightStepMM)
  let minMM := F64.ofRat (minHeightMeters * 1000)
  let maxMM := F64.ofRat (maxHeightMeters * 1000)
  let targetMM := if F64.lt targetMM minMM then minMM else targetMM
  if F64.lt maxMM targetMM then maxMM else targetMM

def MoveByStep (up : Bool) (s : Sys) : Option Err × Sys :=
  match GetHeight s with
  | ((_, some err), s1) => (some err, emitLog .error (.failedToReadHeight err) s1)
  | ((currentMM, none), s1) =>
    MoveToHeight (stepTarget currentMM up) (emitLog .info (.moving up (stepTarget currentMM up)) s1)

/-! ## Relating a state to a later one -/

/-- The state `s'` is reached from `s` with `isMoving` untouched: the tick
count of the environment is the same, the pending telemetry replies are a
tail of the earlier ones, and the trace grew by events that satisfy `P`,
each recorded with the value of `isMoving` in `s`. -/
structure Step (P : Event → Prop) (s s' : Sys) : Prop where
  moving : s'.app.isMoving = s.app.isMoving
  ticks : s'.world.ticks = s.world.ticks
  reads : s'.world.reads <:+ s.world.reads
  trace : ∃ evs : List Obs, s'.trace = evs ++ s.trace ∧
    ∀ o ∈ evs, o.moving = s.app.isMoving ∧ P o.ev

/-- An event other than a characteristic write. -/
def NotWrite (e : Event) : Prop := e.isWrite = false

/-- The trace of `s'` extends that of `s` by events among which is a log event. -/
def Logged (s s' : Sys) : Prop :=
  ∃ evs : List Obs, s'.trace = evs ++ s.trace ∧ ∃ o ∈ evs, o.ev.isLog = true

/-- The trace of `s'` extends that of `s`. -/
def Extends (s s' : Sys) : Prop := ∃ evs : List Obs, s'.trace = evs ++ s.trace

/-- An event other than a log event. -/
def NotLog (e : Event) : Prop := e.isLog = false

/-- The newest event of `s'` is a log event of level ERROR, emitted after
everything in the trace of `s`: the last thing done on the way from `s` to
`s'` was to log an error. -/
def ErrorLogged (s s' : Sys) : Prop :=
  ∃ (m : Bool) (msg : LogMsg) (evs : List Obs),
    s'.trace = { moving := m, ev := .log .error msg } :: (evs ++ s.trace)

/-- The trace of `s'` extends that of `s` by events none of which is a log event. -/
def Silent (s s' : Sys) : Prop :=
  ∃ evs : List Obs, s'.trace = evs ++ s.trace ∧ ∀ o ∈ evs, o.ev.isLog = false

/-- The position and speed `getHeightAndSpeed` decodes from a reply. -/
def sampleOf (reply : ReadReply) : F64 × F64 :=
  (rawToMeters (decodeRawHeight reply.b0 reply.b1),
    F64.div (F64.ofInt (decodeRawSpeed reply.b2 reply.b3)) (F64.ofRat 10000))

/-- Number of characteristic writes recorded in a trace. -/
def writeCount (t : List Obs) : ℕ := t.countP (fun o => o.ev.isWrite)

/-! ## Sample environments -/

def heightChar : Characteristic := { uuid := uuidHeightStr, handle := 1 }
def moveChar : Characteristic := { uuid := uuidMoveStr, handle := 2 }
def referenceChar : Characteristic := { uuid := uuidReferenceInputStr, handle := 3 }

/-- The services of a desk: telemetry in one, the two control endpoints in the other. -/
def deskServices : List Service := [{ chars := [heightChar] }, { chars := [moveChar, referenceChar] }]

/-- An application that already holds a device handle. -/
def connectedApp : App := { desk := { handle := 5 }, haveDesk := true, isMoving := false }

/-- A connected system whose next telemetry reads give the replies `reads`. -/
def connectedSys (reads : List (Except Err ReadReply)) (ticks : ℕ) : Sys :=
  { app := connectedApp
    world := { scans := [], connects := [], discoveries := List.replicate 8 (.ok deskServices),
               reads := reads, ticks := ticks }
    trace := [] }

/-- A fresh system with nothing in reach. -/
def idleSys : Sys :=
  { app := NewApp
    world := { scans := [], connects := [], discoveries := [], reads := [], ticks := 0 }
    trace := [] }

/-! ## Rounding: order and grid lemmas -/

theorem rne_le_floor_add_one (q : ℚ) : rne q ≤ ⌊q⌋ + 1 := by
  unfold rne; split_ifs <;> omega

theorem floor_le_rne (q : ℚ) : ⌊q⌋ ≤ rne q := by
  unfold rne; split_ifs <;> omega

theorem rne_intCast (k : ℤ) : rne (k : ℚ) = k := by
  unfold rne; simp

theorem rne_mono {a b : ℚ} (h : a ≤ b) : rne a ≤ rne b := by
  have hf : ⌊a⌋ ≤ ⌊b⌋ := Int.floor_mono h
  rcases lt_or_eq_of_le hf with hlt | heq
  · calc rne a ≤ ⌊a⌋ + 1 := rne_le_floor_add_one a
      _ ≤ ⌊b⌋ := hlt
      _ ≤ rne b := floor_le_rne b
  · have hab : a - ⌊a⌋ ≤ b - ⌊b⌋ := by rw [heq]; linarith
    unfold rne
    rw [heq] at hab ⊢
    split_ifs <;> first | omega | (exfalso; linarith)

theorem log2Fuel_eq_log : ∀ (fuel n : ℕ), n ≤ fuel → log2Fuel fuel n = Nat.log 2 n
  | 0, n, h => by
    have : n = 0 := by omega
    subst this; simp [log2Fuel]
  | fuel + 1, n, h => by
    unfold log2Fuel
    split_ifs with h2
    · rw [log2Fuel_eq_log fuel (n / 2) (by omega)]
      rw [Nat.log_of_one_lt_of_le (by norm_num) h2]
    · rw [Nat.log_of_lt (by omega)]

theorem natLog2_spec {n : ℕ} (hn : n ≠ 0) : 2 ^ natLog2 n ≤ n ∧ n < 2 ^ (natLog2 n + 1) := by
  unfold natLog2
  rw [log2Fuel_eq_log n n le_rfl]
  exact ⟨Nat.pow_log_le_self 2 hn, Nat.lt_pow_succ_log_self (by norm_num) n⟩

theorem ilog2_spec {q : ℚ} (hq : 0 < q) :
    (2:ℚ) ^ (ilog2 q) ≤ q ∧ q < (2:ℚ) ^ (ilog2 q + 1) := by
  have hn : 0 < q.num := Rat.num_pos.mpr hq
  obtain ⟨n, hnn⟩ : ∃ n : ℕ, q.num = n := ⟨q.num.toNat, (Int.toNat_of_nonneg hn.le).symm⟩
  obtain ⟨d, hdd⟩ : ∃ d : ℕ, q.den = d := ⟨_, rfl⟩
  have hd : 0 < d := hdd ▸ q.den_pos
  have hn0 : n ≠ 0 := by
    rintro rfl
    rw [hnn] at hn
    exact lt_irrefl _ hn
  have hqe : (n : ℚ) / (d : ℚ) = q := by
    have := Rat.num_div_den q
    rw [hnn, hdd, Int.cast_natCast] at this
    exact this
  have toNat_eq : q.num.toNat = n := by rw [hnn]; simp
  unfold ilog2
  simp only [toNat_eq, hdd]
  rw [← hqe]
  have h1 : ((2:ℚ)) ^ (natLog2 n) ≤ (n:ℚ) := by exact_mod_cast (natLog2_spec hn0).1
  have h2 : (n:ℚ) < (2:ℚ) ^ (natLog2 n + 1) := by exact_mod_cast (natLog2_spec hn0).2
  have h3 : ((2:ℚ)) ^ (natLog2 d) ≤ (d:ℚ) := by exact_mod_cast (natLog2_spec hd.ne').1
  have h4 : (d:ℚ) < (2:ℚ) ^ (natLog2 d + 1) := by
    exact_mod_cast (natLog2_spec hd.ne').2
  have hdq : (0:ℚ) < d := by exact_mod_cast hd
  have hnq : (0:ℚ) < n := by exact_mod_cast Nat.pos_of_ne_zero hn0
  have e0 : ∀ z : ℤ, (2:ℚ) ^ (((natLog2 n : ℕ) : ℤ) - ((natLog2 d : ℕ) : ℤ) + z)
      = (2:ℚ) ^ natLog2 n / (2:ℚ) ^ natLog2 d * (2:ℚ) ^ z := by
    intro z
    rw [zpow_add₀ two_ne_zero, zpow_sub₀ two_ne_zero, zpow_natCast, zpow_natCast]
  have hlow : (2:ℚ) ^ (((natLog2 n : ℕ) : ℤ) - ((natLog2 d : ℕ) : ℤ) + (-1)) ≤ (n : ℚ) / (d : ℚ) := by
    rw [e0, div_mul_eq_mul_div, div_le_div_iff₀ (by positivity) hdq]
    have : (2:ℚ) ^ (-1:ℤ) = 1/2 := by norm_num
    rw [this]
    have h4' : (d:ℚ) ≤ 2 * (2:ℚ) ^ natLog2 d := by
      have := h4.le; rw [pow_succ] at this; linarith
    calc (2:ℚ) ^ natLog2 n * (1/2) * d ≤ (2:ℚ) ^ natLog2 n * (1/2) * (2 * (2:ℚ) ^ natLog2 d) := by
          apply mul_le_mul_of_nonneg_left h4'; positivity
      _ = (2:ℚ) ^ natLog2 n * (2:ℚ) ^ natLog2 d := by ring
      _ ≤ n * (2:ℚ) ^ natLog2 d := by
          apply mul_le_mul_of_nonneg_right h1; positivity
  have hhigh : (n : ℚ) / (d : ℚ) < (2:ℚ) ^ (((natLog2 n : ℕ) : ℤ) - ((natLog2 d : ℕ) : ℤ) + 1) := by
    rw [e0, div_mul_eq_mul_div, div_lt_div_iff₀ hdq (by positivity)]
    have h2' : (n:ℚ) < (2:ℚ) ^ natLog2 n * 2 := by rw [pow_succ] at h2; exact h2
    calc (n:ℚ) * (2:ℚ) ^ natLog2 d < (2:ℚ) ^ natLog2 n * 2 * (2:ℚ) ^ natLog2 d := by
          apply mul_lt_mul_of_pos_right h2'; positivity
      _ = (2:ℚ) ^ natLog2 n * 2 ^ (1:ℤ) * (2:ℚ) ^ natLog2 d := by norm_num
      _ ≤ (2:ℚ) ^ natLog2 n * 2 ^ (1:ℤ) * d := by
          apply mul_le_mul_of_nonneg_left h3; positivity
  split_ifs with hc
  · refine ⟨?_, ?_⟩
    · have : ((natLog2 n : ℕ) : ℤ) - ((natLog2 d : ℕ) : ℤ) - 1
          = ((natLog2 n : ℕ) : ℤ) - ((natLog2 d : ℕ) : ℤ) + (-1) := by ring
      rw [this]; exact hlow
    · have : ((natLog2 n : ℕ) : ℤ) - ((natLog2 d : ℕ) : ℤ) - 1 + 1
          = ((natLog2 n : ℕ) : ℤ) - ((natLog2 d : ℕ) : ℤ) := by ring
      rw [this]; exact hc
  · exact ⟨not_lt.mp hc, hhigh⟩

theorem ilog2_eq {q : ℚ} {e : ℤ} (h1 : (2:ℚ) ^ e ≤ q) (h2 : q < (2:ℚ) ^ (e + 1)) :
    ilog2 q = e := by
  have hq : 0 < q := lt_of_lt_of_le (by positivity) h1
  obtain ⟨s1, s2⟩ := ilog2_spec hq
  have a : e < ilog2 q + 1 := (zpow_lt_zpow_iff_right₀ (by norm_num : (1:ℚ) < 2)).1 (lt_of_le_of_lt h1 s2)
  have b : ilog2 q < e + 1 := (zpow_lt_zpow_iff_right₀ (by norm_num : (1:ℚ) < 2)).1 (lt_of_le_of_lt s1 h2)
  omega

theorem ilog2_mono {a b : ℚ} (ha : 0 < a) (h : a ≤ b) : ilog2 a ≤ ilog2 b := by
  obtain ⟨s1, _⟩ := ilog2_spec ha
  obtain ⟨_, t2⟩ := ilog2_spec (lt_of_lt_of_le ha h)
  have : ilog2 a < ilog2 b + 1 :=
    (zpow_lt_zpow_iff_right₀ (by norm_num : (1:ℚ) < 2)).1 (lt_of_le_of_lt (s1.trans h) t2)
  omega

theorem quantum_pos (q : ℚ) : 0 < quantum q := by
  unfold quantum; positivity

theorem roundMag_zero : roundMag 0 = 0 := by
  unfold roundMag
  rw [zero_div]
  have : rne (0:ℚ) = 0 := by simpa using rne_intCast 0
  rw [this]; simp

theorem roundMag_nonneg {q : ℚ} (hq : 0 ≤ q) : 0 ≤ roundMag q := by
  unfold roundMag
  have hu := quantum_pos q
  have h0 : (0:ℤ) ≤ rne (q / quantum q) := by
    have := rne_mono (show ((0:ℤ):ℚ) ≤ q / quantum q by
      simpa using div_nonneg hq hu.le)
    rwa [rne_intCast] at this
  have : (0:ℚ) ≤ (rne (q / quantum q) : ℚ) := by exact_mod_cast h0
  positivity

theorem roundMag_le_pow {q : ℚ} (hq : 0 < q) :
    roundMag q ≤ (2:ℚ) ^ (max (ilog2 q) (-1022) + 1) := by
  obtain ⟨_, s2⟩ := ilog2_spec hq
  have hu := quantum_pos q
  have hlt : q ≤ (2:ℚ) ^ (max (ilog2 q) (-1022) + 1) :=
    s2.le.trans (zpow_le_zpow_right₀ (by norm_num) (by omega))
  have hsplit : (2:ℚ) ^ (max (ilog2 q) (-1022) + 1) = ((2 ^ 53 : ℤ) : ℚ) * quantum q := by
    unfold quantum
    have : max (ilog2 q) (-1022) + 1 = 53 + (max (ilog2 q) (-1022) - 52) := by ring
    rw [this, zpow_add₀ two_ne_zero]
    norm_num
  have hdiv : q / quantum q ≤ ((2 ^ 53 : ℤ) : ℚ) := by
    rw [div_le_iff₀ hu, ← hsplit]; exact hlt
  have hr := rne_mono hdiv
  rw [rne_intCast] at hr
  rw [hsplit]
  unfold roundMag
  apply mul_le_mul_of_nonneg_right _ hu.le
  exact_mod_cast hr

theorem pow_le_roundMag {q : ℚ} (hq : 0 < q) (he : -1022 ≤ ilog2 q) :
    (2:ℚ) ^ (ilog2 q) ≤ roundMag q := by
  obtain ⟨s1, _⟩ := ilog2_spec hq
  have hu := quantum_pos q
  have hmax : max (ilog2 q) (-1022) = ilog2 q := max_eq_left he
  have hsplit : (2:ℚ) ^ (ilog2 q) = ((2 ^ 52 : ℤ) : ℚ) * quantum q := by
    unfold quantum
    rw [hmax]
    have : ilog2 q = 52 + (ilog2 q - 52) := by ring
    conv_lhs => rw [this, zpow_add₀ two_ne_zero]
    norm_num
  have hdiv : ((2 ^ 52 : ℤ) : ℚ) ≤ q / quantum q := by
    rw [le_div_iff₀ hu, ← hsplit]; exact s1
  have hr := rne_mono hdiv
  rw [rne_intCast] at hr
  rw [hsplit]
  unfold roundMag
  apply mul_le_mul_of_nonneg_right _ hu.le
  exact_mod_cast hr

theorem roundMag_mono {a b : ℚ} (ha : 0 ≤ a) (h : a ≤ b) : roundMag a ≤ roundMag b := by
  rcases eq_or_lt_of_le ha with h0 | hpos
  · rw [← h0, roundMag_zero]; exact roundMag_nonneg (ha.trans h)
  have hb : 0 < b := lt_of_lt_of_le hpos h
  have hlog := ilog2_mono hpos h
  by_cases hE : max (ilog2 a) (-1022) = max (ilog2 b) (-1022)
  · have hq : quantum a = quantum b := by unfold quantum; rw [hE]
    unfold roundMag
    rw [hq]
    apply mul_le_mul_of_nonneg_right _ (quantum_pos b).le
    have := rne_mono (div_le_div_of_nonneg_right h (quantum_pos b).le)
    exact_mod_cast this
  · have hlt : max (ilog2 a) (-1022) < ilog2 b := by omega
    calc roundMag a ≤ (2:ℚ) ^ (max (ilog2 a) (-1022) + 1) := roundMag_le_pow hpos
      _ ≤ (2:ℚ) ^ (ilog2 b) := zpow_le_zpow_right₀ (by norm_num) (by omega)
      _ ≤ roundMag b := pow_le_roundMag hb (by omega)

theorem roundQ_mono {a b : ℚ} (h : a ≤ b) : roundQ a ≤ roundQ b := by
  unfold roundQ
  split_ifs with h1 h2 h2
  · exact neg_le_neg (roundMag_mono (by linarith) (by linarith))
  · have := roundMag_nonneg (show 0 ≤ -a by linarith)
    have := roundMag_nonneg (not_lt.mp h2)
    linarith
  · exfalso; linarith
  · exact roundMag_mono (not_lt.mp h1) h

theorem rep_grid {x : ℚ} {e : ℤ} (hx : roundQ x = x) (h1 : (2:ℚ) ^ e ≤ x)
    (h2 : x < (2:ℚ) ^ (e + 1)) (he : -1022 ≤ e) :
    ∃ k : ℤ, x = (k : ℚ) * (2:ℚ) ^ (e - 52) := by
  have hpos : 0 < x := lt_of_lt_of_le (by positivity) h1
  have hlog := ilog2_eq h1 h2
  unfold roundQ at hx
  rw [if_neg (not_lt.mpr hpos.le)] at hx
  unfold roundMag quantum at hx
  rw [hlog, max_eq_left he] at hx
  exact ⟨_, hx.symm⟩

/-! ## The constants as `float64` values -/

theorem ofRat_minHeightMeters : F64.ofRat minHeightMeters = F64.fin f64Min := by decide!

theorem ofRat_maxHeightMeters : F64.ofRat maxHeightMeters = F64.fin f64Max := by decide!

theorem ofRat_1000 : F64.ofRat 1000 = F64.fin 1000 := by decide!

theorem ofRat_10000 : F64.ofRat 10000 = F64.fin 10000 := by decide!

/-! ## Range rejection -/

/-- The largest `float64` below 620 is `620 - 2^-43`. -/
theorem le_pred_620 {q : ℚ} (hq : roundQ q = q) (h : q < 620) :
    q ≤ 5453577673768959 / 8796093022208 := by
  by_cases h512 : q < 512
  · linarith
  · have h1 : (2:ℚ) ^ (9:ℤ) ≤ q := by norm_num; linarith
    have h2 : q < (2:ℚ) ^ ((9:ℤ) + 1) := by norm_num; linarith
    obtain ⟨k, hk⟩ := rep_grid hq h1 h2 (by norm_num)
    have hu : (2:ℚ) ^ ((9:ℤ) - 52) = 1 / 8796093022208 := by norm_num
    rw [hu] at hk
    have hk1 : (k:ℚ) < 5453577673768960 := by rw [hk] at h; linarith
    have hk2 : k < 5453577673768960 := by exact_mod_cast hk1
    have hk3 : (k:ℚ) ≤ 5453577673768959 := by
      have : k ≤ 5453577673768959 := by omega
      exact_mod_cast this
    rw [hk]; linarith

/-- The smallest `float64` above 1270 is `1270 + 2^-42`. -/
theorem succ_1270_le {q : ℚ} (hq : roundQ q = q) (h : 1270 < q) :
    5585519069102081 / 4398046511104 ≤ q := by
  by_cases h2048 : 2048 ≤ q
  · linarith
  · have h1 : (2:ℚ) ^ (10:ℤ) ≤ q := by norm_num; linarith
    have h2 : q < (2:ℚ) ^ ((10:ℤ) + 1) := by norm_num; linarith
    obtain ⟨k, hk⟩ := rep_grid hq h1 h2 (by norm_num)
    have hu : (2:ℚ) ^ ((10:ℤ) - 52) = 1 / 4398046511104 := by norm_num
    rw [hu] at hk
    have hk1 : (5585519069102080:ℚ) < k := by rw [hk] at h; linarith
    have hk2 : 5585519069102080 < k := by exact_mod_cast hk1
    have hk3 : (5585519069102081:ℚ) ≤ k := by
      have : 5585519069102081 ≤ k := by omega
      exact_mod_cast this
    rw [hk]; linarith

theorem roundQ_pred_620_div : roundQ (5453577673768959 / 8796093022208 / 1000)
    = 2792231768969707 / 4503599627370496 := by decide!

theorem roundQ_succ_1270_div : roundQ (5585519069102081 / 4398046511104 / 1000)
    = 5719571526760531 / 4503599627370496 := by decide!

theorem div_1000_lt_min {q : ℚ} (hq : roundQ q = q) (h : q < 620) :
    F64.lt (F64.div (F64.fin q) (F64.ofRat 1000)) (F64.ofRat minHeightMeters) = true := by
  have hb : roundQ (q / 1000) ≤ 2792231768969707 / 4503599627370496 := by
    rw [← roundQ_pred_620_div]
    exact roundQ_mono (div_le_div_of_nonneg_right (le_pred_620 hq h) (by norm_num))
  rw [ofRat_1000, ofRat_minHeightMeters]
  simp only [F64.div, F64.ofRat, show (1000:ℚ) ≠ 0 by norm_num, if_false]
  split_ifs with c1 c2
  · exfalso
    have : (2:ℚ) ^ 1024 ≤ 2792231768969707 / 4503599627370496 := c1.trans hb
    norm_num at this
  · rfl
  · simp only [F64.lt, f64Min, decide_eq_true_eq]
    exact lt_of_le_of_lt hb (by norm_num)

theorem max_lt_div_1000 {q : ℚ} (hq : roundQ q = q) (h : 1270 < q) :
    F64.lt (F64.ofRat maxHeightMeters) (F64.div (F64.fin q) (F64.ofRat 1000)) = true := by
  have hb : 5719571526760531 / 4503599627370496 ≤ roundQ (q / 1000) := by
    rw [← roundQ_succ_1270_div]
    exact roundQ_mono (div_le_div_of_nonneg_right (succ_1270_le hq h) (by norm_num))
  rw [ofRat_1000, ofRat_maxHeightMeters]
  simp only [F64.div, F64.ofRat, show (1000:ℚ) ≠ 0 by norm_num, if_false]
  split_ifs with c1 c2
  · rfl
  · exfalso
    have : (5719571526760531:ℚ) / 4503599627370496 ≤ -(2:ℚ) ^ 1024 := hb.trans c2
    norm_num at this
  · simp only [F64.lt, f64Max, decide_eq_true_eq]
    exact lt_of_lt_of_le (by norm_num) hb

theorem outOfRange_of_outside {x : F64} (hrep : x.IsRep)
    (h : F64.lt x (F64.fin 620) = true ∨ F64.lt (F64.fin 1270) x = true) :
    outOfRange (F64.div x (F64.ofRat 1000)) = true := by
  unfold outOfRange
  cases x with
  | nan => simp [F64.lt] at h
  | pinf =>
    rw [ofRat_1000, ofRat_maxHeightMeters]
    norm_num [F64.div, F64.infOf, F64.lt]
  | ninf =>
    rw [ofRat_1000, ofRat_minHeightMeters]
    norm_num [F64.div, F64.infOf, F64.lt]
  | fin q =>
    rcases h with h | h
    · rw [div_1000_lt_min hrep.1 (by simpa [F64.lt] using h)]; rfl
    · rw [max_lt_div_1000 hrep.1 (by simpa [F64.lt] using h)]; simp

/-- C1. A target below 620 mm or above 1270 mm is rejected with the
out-of-range error; the only thing `MoveToHeight` does is emit one log event:
no call reaches the Bluetooth stack, no reply of the environment is consumed,
and the application state (cached handle, `haveDesk`, `isMoving`) is unchanged. -/
theorem moveToHeight_rejects_out_of_range (x : F64) (s : Sys) (hrep : x.IsRep)
    (h : F64.lt x (F64.fin 620) = true ∨ F64.lt (F64.fin 1270) x = true) :
    (MoveToHeight x s).1 = some Err.outOfRange ∧
    (MoveToHeight x s).2.trace
      = { moving := s.app.isMoving, ev := .log .error (.targetOutOfRange x) } :: s.trace ∧
    (∀ o ∈ ((MoveToHeight x s).2.trace.take 1), o.ev.isTransport = false) ∧
    (MoveToHeight x s).2.app = s.app ∧
    (MoveToHeight x s).2.world = s.world := by
  unfold MoveToHeight
  rw [if_pos (outOfRange_of_outside hrep h)]
  simp [emitLog, emit, Event.isTransport]

theorem moveToHeight_rejects_out_of_range_witness :
    (MoveToHeight (F64.fin 600) idleSys).1 = some Err.outOfRange ∧
    (MoveToHeight (F64.fin 600) idleSys).2.trace
      = { moving := idleSys.app.isMoving,
          ev := .log .error (.targetOutOfRange (F64.fin 600)) } :: idleSys.trace ∧
    (∀ o ∈ ((MoveToHeight (F64.fin 600) idleSys).2.trace.take 1), o.ev.isTransport = false) ∧
    (MoveToHeight (F64.fin 600) idleSys).2.app = idleSys.app ∧
    (MoveToHeight (F64.fin 600) idleSys).2.world = idleSys.world :=
  moveToHeight_rejects_out_of_range (F64.fin 600) idleSys
    ⟨by decide!, by norm_num [abs_of_nonneg]⟩ (Or.inl (by norm_num [F64.lt]))

/-! ## Unit conversion -/

theorem rawToMeters_one :
    rawToMeters 1 = F64.fin (5585364257864889 / 9007199254740992) := by
  unfold rawToMeters
  rw [show F64.ofInt 1 = F64.fin 1 from by decide!, ofRat_10000, ofRat_minHeightMeters,
    show F64.div (F64.fin 1) (F64.fin 10000)
      = F64.fin (7378697629483821 / 73786976294838206464) from by decide!]
  decide!

/-- C2 (failing input). The conversions are not inverse at `raw = 1`:
`rawToMeters 1` is the `float64` nearest to 0.6201, the product
`(rawToMeters(1) - 0.62) * 10000` computed by `metersToRaw` is the `float64`
0.9999999999998899, below 1, and `int(...)` discards its fraction, so
`metersToRaw(rawToMeters(1))` is 0; rounded to the nearest integer the same
product is 1. -/
theorem metersToRaw_rawToMeters_one :
    rawToMeters 1 = F64.fin (5585364257864889 / 9007199254740992) ∧
    F64.mul (F64.sub (rawToMeters 1) (F64.ofRat minHeightMeters)) (F64.ofRat 10000)
      = F64.fin (281474976710625 / 281474976710656) ∧
    metersToRaw (rawToMeters 1) = 0 ∧
    metersToRaw (rawToMeters 1) ≠ 1 ∧
    rne (281474976710625 / 281474976710656) = 1 := by
  have hprod : F64.mul (F64.sub (rawToMeters 1) (F64.ofRat minHeightMeters)) (F64.ofRat 10000)
      = F64.fin (281474976710625 / 281474976710656) := by
    rw [rawToMeters_one, ofRat_minHeightMeters, ofRat_10000,
      show F64.sub (F64.fin (5585364257864889 / 9007199254740992)) (F64.fin f64Min)
        = F64.fin (450359962737 / 4503599627370496) from by decide!]
    decide!
  have hraw : metersToRaw (rawToMeters 1) = 0 := by
    unfold metersToRaw
    rw [hprod]
    decide!
  refine ⟨rawToMeters_one, hprod, hraw, ?_, by decide!⟩
  rw [hraw]; decide

/-- C3 (failing input). For the target 700 mm, `MoveToHeight` computes
`targetMeters = 700 / 1000.0`, the `float64` nearest to 0.7.  The product
`(targetMeters - 0.62) * 10000` is the `float64` 799.9999999999995;
`metersToRaw` discards its fraction and returns 799, and the payload is
`[0x1F, 0x03]`, the little-endian bytes of 799.  Rounded to the nearest
integer, the product is 800, in `float64` and in exact arithmetic alike. -/
theorem metersToRaw_truncates :
    F64.div (F64.fin 700) (F64.ofRat 1000) = F64.fin (3152519739159347 / 4503599627370496) ∧
    F64.mul (F64.sub (F64.fin (3152519739159347 / 4503599627370496))
        (F64.ofRat minHeightMeters)) (F64.ofRat 10000)
      = F64.fin (1759218604441599 / 2199023255552) ∧
    metersToRaw (F64.fin (3152519739159347 / 4503599627370496)) = 799 ∧
    referencePayload (metersToRaw (F64.fin (3152519739159347 / 4503599627370496)))
      = [0x1F, 0x03] ∧
    rne (1759218604441599 / 2199023255552) = 800 ∧
    rne ((3152519739159347 / 4503599627370496 - minHeightMeters) * 10000) = 800 := by
  have hprod : F64.mul (F64.sub (F64.fin (3152519739159347 / 4503599627370496))
        (F64.ofRat minHeightMeters)) (F64.ofRat 10000)
      = F64.fin (1759218604441599 / 2199023255552) := by
    rw [ofRat_minHeightMeters, ofRat_10000,
      show F64.sub (F64.fin (3152519739159347 / 4503599627370496)) (F64.fin f64Min)
        = F64.fin (720575940379279 / 9007199254740992) from by decide!]
    decide!
  have hraw : metersToRaw (F64.fin (3152519739159347 / 4503599627370496)) = 799 := by
    unfold metersToRaw
    rw [hprod]
    decide!
  refine ⟨?_, hprod, hraw, ?_, by decide!, by decide!⟩
  · rw [ofRat_1000]; decide!
  · rw [hraw]; decide

/-! ## Telemetry decoding -/

theorem decodeRawHeight_eq (b0 b1 : Byte) :
    decodeRawHeight b0 b1 = (b0.val : ℤ) + 256 * (b1.val : ℤ) := by
  unfold decodeRawHeight
  have h := Nat.mul_add_lt_is_or (i := 8) (b := b0.val) (by have := b0.isLt; omega) b1.val
  rw [Nat.shiftLeft_eq, Nat.lor_comm, Nat.mul_comm, ← h]
  push_cast; ring

theorem decodeRawSpeed_eq (b2 b3 : Byte) :
    decodeRawSpeed b2 b3 =
      if (b2.val : ℤ) + 256 * (b3.val : ℤ) < 32768 then (b2.val : ℤ) + 256 * (b3.val : ℤ)
      else (b2.val : ℤ) + 256 * (b3.val : ℤ) - 65536 := by
  unfold decodeRawSpeed toInt16
  have h2 := b2.isLt
  have h3 := b3.isLt
  have hs : (b3.val <<< 8) % 65536 = 2 ^ 8 * b3.val := by
    rw [Nat.shiftLeft_eq, Nat.mul_comm]; omega
  have h := Nat.mul_add_lt_is_or (i := 8) (b := b2.val) (by omega) b3.val
  rw [hs, Nat.lor_comm, ← h]
  have hm : (2 ^ 8 * b3.val + b2.val) % 65536 = 2 ^ 8 * b3.val + b2.val := by omega
  rw [hm]
  split_ifs with c1 c2 c2
  · push_cast; ring
  · exfalso; omega
  · exfalso; omega
  · push_cast; ring

/-- C5. When the telemetry read succeeds with at least 4 bytes `b0 b1 b2 b3`,
`getHeightAndSpeed` returns, with no error, the position
`float64(b0 + 256*b1)/10000.0 + 0.62` (bytes 0-1 as an unsigned little-endian
16-bit value) and the speed `float64(s)/10000.0`, where `s` is bytes 2-3 as a
signed little-endian 16-bit value: `b2 + 256*b3` when that is below 32768 and
`b2 + 256*b3 - 65536` otherwise. -/
theorem getHeightAndSpeed_decodes (s s1 s2 : Sys) (dev : Device) (ch : Characteristic)
    (reply : ReadReply) (rest : List (Except Err ReadReply))
    (h1 : getOrConnectDesk s = ((dev, none), s1))
    (h2 : findHeightCharacteristic dev s1 = ((ch, none), s2))
    (h3 : s2.world.reads = .ok reply :: rest)
    (h4 : 4 ≤ reply.n) :
    (getHeightAndSpeed s).1 =
      (F64.add (F64.div (F64.ofInt ((reply.b0.val : ℤ) + 256 * (reply.b1.val : ℤ)))
          (F64.ofRat 10000)) (F64.ofRat (62 / 100)),
        F64.div (F64.ofInt
          (if (reply.b2.val : ℤ) + 256 * (reply.b3.val : ℤ) < 32768
            then (reply.b2.val : ℤ) + 256 * (reply.b3.val : ℤ)
            else (reply.b2.val : ℤ) + 256 * (reply.b3.val : ℤ) - 65536)) (F64.ofRat 10000),
        none) := by
  unfold getHeightAndSpeed
  simp only [h1, h2, charRead, emit, h3]
  rw [if_neg (not_lt.mpr h4)]
  simp only [rawToMeters, decodeRawHeight_eq, decodeRawSpeed_eq, minHeightMeters]

theorem getHeightAndSpeed_decodes_witness :
    (getHeightAndSpeed (connectedSys [.ok ⟨4, 0x20, 0x03, 0xFE, 0xFF⟩] 0)).1 =
      (F64.add (F64.div (F64.ofInt (((0x20 : Byte).val : ℤ) + 256 * ((0x03 : Byte).val : ℤ)))
          (F64.ofRat 10000)) (F64.ofRat (62 / 100)),
        F64.div (F64.ofInt
          (if (((0xFE : Byte)).val : ℤ) + 256 * ((0xFF : Byte).val : ℤ) < 32768
            then ((0xFE : Byte).val : ℤ) + 256 * ((0xFF : Byte).val : ℤ)
            else ((0xFE : Byte).val : ℤ) + 256 * ((0xFF : Byte).val : ℤ) - 65536))
          (F64.ofRat 10000),
        none) :=
  getHeightAndSpeed_decodes (connectedSys [.ok ⟨4, 0x20, 0x03, 0xFE, 0xFF⟩] 0) _ _ _ _
    ⟨4, 0x20, 0x03, 0xFE, 0xFF⟩ [] rfl rfl rfl (by decide)

/-- C8. When the telemetry read succeeds at the transport level and reports
`n` bytes, `getHeightAndSpeed` returns an error exactly when `n < 4`, and then
the height and the speed it returns are both 0. -/
theorem getHeightAndSpeed_short_payload (s s1 s2 : Sys) (dev : Device) (ch : Characteristic)
    (reply : ReadReply) (rest : List (Except Err ReadReply))
    (h1 : getOrConnectDesk s = ((dev, none), s1))
    (h2 : findHeightCharacteristic dev s1 = ((ch, none), s2))
    (h3 : s2.world.reads = .ok reply :: rest) :
    ((getHeightAndSpeed s).1.2.2 ≠ none ↔ reply.n < 4) ∧
    (reply.n < 4 →
      (getHeightAndSpeed s).1 = (F64.fin 0, F64.fin 0, some (Err.invalidPayload reply.n))) := by
  unfold getHeightAndSpeed
  simp only [h1, h2, charRead, emit, h3]
  by_cases hn : reply.n < 4
  · simp [hn]
  · simp [hn]

theorem getHeightAndSpeed_short_payload_witness :
    ((getHeightAndSpeed (connectedSys [.ok ⟨3, 0x20, 0x03, 0xFE, 0x00⟩] 0)).1.2.2 ≠ none
        ↔ (3 : ℤ) < 4) ∧
    ((3 : ℤ) < 4 →
      (getHeightAndSpeed (connectedSys [.ok ⟨3, 0x20, 0x03, 0xFE, 0x00⟩] 0)).1
        = (F64.fin 0, F64.fin 0, some (Err.invalidPayload 3))) :=
  getHeightAndSpeed_short_payload (connectedSys [.ok ⟨3, 0x20, 0x03, 0xFE, 0x00⟩] 0) _ _ _ _
    ⟨3, 0x20, 0x03, 0xFE, 0x00⟩ [] rfl rfl rfl

/-! ## Connection caching -/

/-- C9. With a handle cached (`haveDesk` true), `getOrConnectDesk` returns
that handle and no error and leaves the whole system as it was: no event is
added to the trace (so no scan and no connect call), no reply of the
environment is consumed, and `desk`, `haveDesk`, `isMoving` are unchanged; a
second call therefore returns the same handle again, still with no call. -/
theorem getOrConnectDesk_cached (s : Sys) (h : s.app.haveDesk = true) :
    getOrConnectDesk s = ((s.app.desk, none), s) ∧
    getOrConnectDesk (getOrConnectDesk s).2 = ((s.app.desk, none), s) ∧
    (getOrConnectDesk (getOrConnectDesk s).2).2.trace = s.trace ∧
    (getOrConnectDesk (getOrConnectDesk s).2).2.app = s.app := by
  have h0 : getOrConnectDesk s = ((s.app.desk, none), s) := by
    unfold getOrConnectDesk; rw [if_pos h]
  refine ⟨h0, ?_, ?_, ?_⟩ <;> simp [h0]

theorem getOrConnectDesk_cached_witness :
    getOrConnectDesk (connectedSys [] 0)
      = (((connectedSys [] 0).app.desk, none), connectedSys [] 0) ∧
    getOrConnectDesk (getOrConnectDesk (connectedSys [] 0)).2
      = (((connectedSys [] 0).app.desk, none), connectedSys [] 0) ∧
    (getOrConnectDesk (getOrConnectDesk (connectedSys [] 0)).2).2.trace
      = (connectedSys [] 0).trace ∧
    (getOrConnectDesk (getOrConnectDesk (connectedSys [] 0)).2).2.app
      = (connectedSys [] 0).app :=
  getOrConnectDesk_cached (connectedSys [] 0) rfl

/-! ## Frame lemmas -/

theorem Step.refl (P : Event → Prop) (s : Sys) : Step P s s :=
  ⟨rfl, rfl, List.suffix_refl _, [], rfl, by simp⟩

theorem Step.trans {P : Event → Prop} {s t u : Sys} (h1 : Step P s t) (h2 : Step P t u) :
    Step P s u := by
  obtain ⟨m1, k1, r1, e1, t1, p1⟩ := h1
  obtain ⟨m2, k2, r2, e2, t2, p2⟩ := h2
  refine ⟨m2.trans m1, k2.trans k1, r2.trans r1, e2 ++ e1, ?_, ?_⟩
  · rw [t2, t1, List.append_assoc]
  · intro o ho
    rcases List.mem_append.1 ho with ho | ho
    · have := p2 o ho; rw [m1] at this; exact this
    · exact p1 o ho

theorem Step.mono {P Q : Event → Prop} {s t : Sys} (h : Step P s t) (hPQ : ∀ e, P e → Q e) :
    Step Q s t := by
  obtain ⟨m1, k1, r1, e1, t1, p1⟩ := h
  exact ⟨m1, k1, r1, e1, t1, fun o ho => ⟨(p1 o ho).1, hPQ _ (p1 o ho).2⟩⟩

theorem Step.emit {P : Event → Prop} (e : Event) (s : Sys) (h : P e) : Step P s (emit e s) :=
  ⟨rfl, rfl, List.suffix_refl _, [{ moving := s.app.isMoving, ev := e }], rfl, by simpa using h⟩

theorem Step.then_emit {P : Event → Prop} {s t : Sys} (h : Step P s t) (e : Event)
    (he : P e) : Step P s (Desk.emit e t) :=
  h.trans (Step.emit e t he)

theorem adapterScan_step (s : Sys) : Step NotWrite s (adapterScan s).2 := by
  unfold adapterScan
  have h0 := Step.emit (P := NotWrite) .scan s rfl
  cases hs : (Desk.emit Event.scan s).world.scans with
  | nil => simpa [hs] using h0
  | cons r rest =>
    have h1 : Step NotWrite s
        { Desk.emit Event.scan s with
          world := { (Desk.emit Event.scan s).world with scans := rest } } :=
      ⟨h0.moving, h0.ticks, h0.reads, h0.trace⟩
    cases r with
    | error e => simpa [hs] using h1
    | ok adverts =>
      cases hc : scanCallback adverts with
      | none => simpa [hs, hc] using h1
      | some found => simpa [hs, hc] using h1.then_emit .stopScan rfl

theorem adapterConnect_step (address : ℕ) (s : Sys) :
    Step NotWrite s (adapterConnect address s).2 := by
  unfold adapterConnect
  have h0 := Step.emit (P := NotWrite) (.connect address) s rfl
  cases hs : (Desk.emit (Event.connect address) s).world.connects with
  | nil => simpa [hs] using h0
  | cons r rest => simpa [hs] using (⟨h0.moving, h0.ticks, h0.reads, h0.trace⟩ :
      Step NotWrite s
        { Desk.emit (Event.connect address) s with
          world := { (Desk.emit (Event.connect address) s).world with connects := rest } })

theorem discoverServices_step (dev : Device) (s : Sys) :
    Step NotWrite s (discoverServices dev s).2 := by
  unfold discoverServices
  have h0 := Step.emit (P := NotWrite) (.discoverServices dev) s rfl
  cases hs : (Desk.emit (Event.discoverServices dev) s).world.discoveries with
  | nil => simpa [hs] using h0
  | cons r rest => simpa [hs] using (⟨h0.moving, h0.ticks, h0.reads, h0.trace⟩ :
      Step NotWrite s
        { Desk.emit (Event.discoverServices dev) s with
          world := { (Desk.emit (Event.discoverServices dev) s).world with discoveries := rest } })

theorem charRead_step (c : Characteristic) (s : Sys) :
    Step NotWrite s (charRead c s).2 := by
  unfold charRead
  have h0 := Step.emit (P := NotWrite) (.read c) s rfl
  cases hs : (Desk.emit (Event.read c) s).world.reads with
  | nil => simpa [hs] using h0
  | cons r rest =>
    have hsuf : rest <:+ s.world.reads := by
      have : (Desk.emit (Event.read c) s).world.reads = s.world.reads := rfl
      rw [← this, hs]; exact List.suffix_cons r rest
    simpa [hs] using (⟨h0.moving, h0.ticks, hsuf, h0.trace⟩ :
      Step NotWrite s
        { Desk.emit (Event.read c) s with
          world := { (Desk.emit (Event.read c) s).world with reads := rest } })

theorem getOrConnectDesk_step (s : Sys) : Step NotWrite s (getOrConnectDesk s).2 := by
  unfold getOrConnectDesk
  split_ifs with h
  · exact Step.refl _ _
  · have a := (Step.emit (P := NotWrite) (.log .info .scanning) s rfl).trans
      (adapterScan_step (emitLog .info .scanning s))
    rcases hres : adapterScan (emitLog .info .scanning s) with ⟨r, s1⟩
    rw [hres] at a
    rcases r with err | _ | found
    · exact (a.then_emit (.log .error (.scanFailed err)) rfl).then_emit (.connection _) rfl
    · exact (a.then_emit (.log .warn .noDeskFound) rfl).then_emit (.connection _) rfl
    · dsimp only
      have b := (a.then_emit (.log .info (.deskFound found.localName)) rfl).trans
        (adapterConnect_step found.address (emitLog .info (.deskFound found.localName) s1))
      rcases hc : adapterConnect found.address (emitLog .info (.deskFound found.localName) s1)
        with ⟨r2, s2⟩
      rw [hc] at b
      rcases r2 with err | dev
      · exact (b.then_emit (.log .error (.connectionFailed err)) rfl).then_emit
          (.connection _) rfl
      · have c : Step NotWrite s { s2 with app := { s2.app with desk := dev, haveDesk := true } } :=
          ⟨b.moving, b.ticks, b.reads, b.trace⟩
        exact (c.then_emit (.log .info (.connectedTo found.localName)) rfl).then_emit
          (.connection _) rfl

theorem heightLoop_step (dev : Device) : ∀ (svcs : List Service) (s : Sys),
    Step NotWrite s (heightLoop dev svcs s).2
  | [], s => Step.refl _ _
  | svc :: rest, s => by
    unfold heightLoop
    have a := Step.emit (P := NotWrite) (.discoverCharacteristics dev) s rfl
    cases hf : svc.chars.find? (fun ch => ch.uuid = uuidHeightStr) with
    | some ch => exact a
    | none => exact a.trans (heightLoop_step dev rest _)

theorem findHeightCharacteristic_step (dev : Device) (s : Sys) :
    Step NotWrite s (findHeightCharacteristic dev s).2 := by
  unfold findHeightCharacteristic
  have a := discoverServices_step dev s
  rcases hres : discoverServices dev s with ⟨r, s1⟩
  rw [hres] at a
  rcases r with err | services
  · exact a
  · dsimp only
    have b := a.trans (heightLoop_step dev services s1)
    rcases hl : heightLoop dev services s1 with ⟨r2, s2⟩
    rw [hl] at b
    rcases r2 with _ | ch
    · exact b
    · exact b

theorem moveLoop_step (dev : Device) : ∀ (svcs : List Service) (m : MoveScan) (s : Sys),
    Step NotWrite s (moveLoop dev svcs m s).2
  | [], m, s => Step.refl _ _
  | svc :: rest, m, s => by
    unfold moveLoop
    exact (Step.emit (P := NotWrite) (.discoverCharacteristics dev) s rfl).trans
      (moveLoop_step dev rest _ _)

theorem findMoveCharacteristics_step (dev : Device) (s : Sys) :
    Step NotWrite s (findMoveCharacteristics dev s).2 := by
  unfold findMoveCharacteristics
  have a := discoverServices_step dev s
  rcases hres : discoverServices dev s with ⟨r, s1⟩
  rw [hres] at a
  rcases r with err | services
  · exact a
  · dsimp only
    have b := a.trans (moveLoop_step dev services
      { cmdChar := default, refChar := default, foundCmd := false, foundRef := false } s1)
    rcases hl : moveLoop dev services
      { cmdChar := default, refChar := default, foundCmd := false, foundRef := false } s1
      with ⟨m, s2⟩
    rw [hl] at b
    dsimp only
    split_ifs <;> exact b

theorem GetHeight_step (s : Sys) : Step NotWrite s (GetHeight s).2 := by
  unfold GetHeight
  have a := getOrConnectDesk_step s
  rcases h1 : getOrConnectDesk s with ⟨⟨dev, e1⟩, s1⟩
  rw [h1] at a
  rcases e1 with _ | e1
  · dsimp only
    have b := a.trans (findHeightCharacteristic_step dev s1)
    rcases h2 : findHeightCharacteristic dev s1 with ⟨⟨ch, e2⟩, s2⟩
    rw [h2] at b
    rcases e2 with _ | e2
    · dsimp only
      have c := b.trans (charRead_step ch s2)
      rcases h3 : charRead ch s2 with ⟨r, s3⟩
      rw [h3] at c
      rcases r with err | reply
      · exact c
      · dsimp only
        split_ifs <;> exact c
    · exact b
  · exact a

theorem getHeightAndSpeed_step (s : Sys) : Step NotWrite s (getHeightAndSpeed s).2 := by
  unfold getHeightAndSpeed
  have a := getOrConnectDesk_step s
  rcases h1 : getOrConnectDesk s with ⟨⟨dev, e1⟩, s1⟩
  rw [h1] at a
  rcases e1 with _ | e1
  · dsimp only
    have b := a.trans (findHeightCharacteristic_step dev s1)
    rcases h2 : findHeightCharacteristic dev s1 with ⟨⟨ch, e2⟩, s2⟩
    rw [h2] at b
    rcases e2 with _ | e2
    · dsimp only
      have c := b.trans (charRead_step ch s2)
      rcases h3 : charRead ch s2 with ⟨r, s3⟩
      rw [h3] at c
      rcases r with err | reply
      · exact c
      · dsimp only
        split_ifs <;> exact c
    · exact b
  · exact a

theorem Step.writeCount_eq {s t : Sys} (h : Step NotWrite s t) :
    writeCount t.trace = writeCount s.trace := by
  obtain ⟨evs, ht, hp⟩ := h.trace
  unfold writeCount
  rw [ht, List.countP_append]
  have : List.countP (fun o => o.ev.isWrite) evs = 0 := by
    rw [List.countP_eq_zero]
    intro o ho
    have := (hp o ho).2
    unfold NotWrite at this
    simp [this]
  omega

theorem Step.all {s t : Sys} (h : Step NotWrite s t) : Step (fun _ => True) s t :=
  h.mono (fun _ _ => trivial)

/-- A successful `getHeightAndSpeed` returns the sample decoded from one of
the pending replies, which reported at least 4 bytes. -/
theorem getHeightAndSpeed_sample {s s' : Sys} {cur sp : F64}
    (h : getHeightAndSpeed s = ((cur, sp, none), s')) :
    ∃ reply, Except.ok reply ∈ s.world.reads ∧ 4 ≤ reply.n ∧ (cur, sp) = sampleOf reply := by
  unfold getHeightAndSpeed at h
  have a := getOrConnectDesk_step s
  rcases h1 : getOrConnectDesk s with ⟨⟨dev, e1⟩, s1⟩
  rw [h1] at a h
  rcases e1 with _ | e1
  · dsimp only at h
    have b := a.trans (findHeightCharacteristic_step dev s1)
    rcases h2 : findHeightCharacteristic dev s1 with ⟨⟨ch, e2⟩, s2⟩
    rw [h2] at b h
    rcases e2 with _ | e2
    · dsimp only at h
      cases hr : s2.world.reads with
      | nil => simp [charRead, emit, hr] at h
      | cons r rest =>
        simp only [charRead, emit, hr] at h
        rcases r with err | reply
        · simp at h
        · dsimp only at h
          have hmem : Except.ok reply ∈ s.world.reads :=
            b.reads.subset (by rw [hr]; exact List.mem_cons_self _ _)
          by_cases hn : reply.n < 4
          · rw [if_pos hn] at h; simp at h
          · rw [if_neg hn] at h
            refine ⟨reply, hmem, not_lt.mp hn, ?_⟩
            simp only [Prod.mk.injEq] at h
            unfold sampleOf
            rw [← h.1.1, ← h.1.2.1]
    · simp at h
  · simp at h

theorem pollLoop_step (refChar : Characteristic) (payload : List Byte) (tm tmm : F64) :
    ∀ (n : ℕ) (s : Sys), Step (fun _ => True) s (pollLoop refChar payload tm tmm n s).2
  | 0, s => by
    unfold pollLoop
    exact Step.emit _ _ trivial
  | n + 1, s => by
    unfold pollLoop
    have a := (Step.emit (P := fun _ => True) (.write refChar payload) s trivial).trans
      (getHeightAndSpeed_step (charWrite refChar payload s)).all
    rcases hg : getHeightAndSpeed (charWrite refChar payload s) with ⟨⟨cur, sp, e⟩, s1⟩
    rw [hg] at a
    rcases e with _ | e
    · dsimp only
      split_ifs
      · exact (a.then_emit (.height _) trivial).then_emit (.log _ _) trivial
      · exact (a.then_emit (.height _) trivial).trans (pollLoop_step refChar payload tm tmm n _)
    · exact a.trans (pollLoop_step refChar payload tm tmm n s1)

/-- An error from the move loop is the timeout, and its log event is the
last thing the loop does. -/
theorem pollLoop_error (refChar : Characteristic) (payload : List Byte) (tm tmm : F64) :
    ∀ (n : ℕ) (s : Sys) (e : Err), (pollLoop refChar payload tm tmm n s).1 = some e →
      ∃ t, Step (fun _ => True) s t ∧
        (pollLoop refChar payload tm tmm n s).2 = emitLog .error .timeoutNotReached t
  | 0, s, e, _ => ⟨s, Step.refl _ _, by unfold pollLoop; rfl⟩
  | n + 1, s, e, h => by
    unfold pollLoop at h ⊢
    have a := (Step.emit (P := fun _ => True) (.write refChar payload) s trivial).trans
      (getHeightAndSpeed_step (charWrite refChar payload s)).all
    rcases hg : getHeightAndSpeed (charWrite refChar payload s) with ⟨⟨cur, sp, e1⟩, s1⟩
    rw [hg] at a h
    rcases e1 with _ | e1
    · dsimp only at h ⊢
      by_cases hc : arrived cur sp tm = true
      · rw [if_pos hc] at h; simp at h
      · rw [if_neg hc] at h ⊢
        obtain ⟨t, ht, hfin⟩ := pollLoop_error refChar payload tm tmm n _ e h
        exact ⟨t, (a.then_emit (.height _) trivial).trans ht, hfin⟩
    · dsimp only at h ⊢
      obtain ⟨t, ht, hfin⟩ := pollLoop_error refChar payload tm tmm n _ e h
      exact ⟨t, a.trans ht, hfin⟩

theorem writeCount_emit (e : Event) (s : Sys) :
    writeCount (emit e s).trace = writeCount s.trace + (if e.isWrite then 1 else 0) := by
  unfold writeCount emit
  simp [List.countP_cons]

/-- With no pending reply that decodes to an arrival, the move loop runs
through all its ticks, writing the payload at each, and ends in the timeout. -/
theorem pollLoop_timeout (refChar : Characteristic) (payload : List Byte) (tm tmm : F64) :
    ∀ (n : ℕ) (s : Sys),
      (∀ reply, Except.ok reply ∈ s.world.reads → 4 ≤ reply.n →
        arrived (sampleOf reply).1 (sampleOf reply).2 tm = false) →
      (pollLoop refChar payload tm tmm n s).1 = some Err.timeout ∧
      writeCount (pollLoop refChar payload tm tmm n s).2.trace = writeCount s.trace + n
  | 0, s, _ => by
    unfold pollLoop
    refine ⟨rfl, ?_⟩
    simp [emitLog, writeCount_emit, Event.isWrite]
  | n + 1, s, hs => by
    unfold pollLoop
    have a := getHeightAndSpeed_step (charWrite refChar payload s)
    have hw : writeCount (charWrite refChar payload s).trace = writeCount s.trace + 1 := by
      simp [charWrite, writeCount_emit, Event.isWrite]
    rcases hg : getHeightAndSpeed (charWrite refChar payload s) with ⟨⟨cur, sp, e1⟩, s1⟩
    rw [hg] at a
    have hs1 : ∀ reply, Except.ok reply ∈ s1.world.reads → 4 ≤ reply.n →
        arrived (sampleOf reply).1 (sampleOf reply).2 tm = false :=
      fun reply hm hn => hs reply (a.reads.subset hm) hn
    have hc1 : writeCount s1.trace = writeCount s.trace + 1 := by
      rw [← hw]; exact a.writeCount_eq
    rcases e1 with _ | e1
    · dsimp only
      obtain ⟨reply, hm, hn, hsample⟩ := getHeightAndSpeed_sample hg
      have hnot : arrived cur sp tm = false := by
        have := hs reply hm hn
        rw [← hsample] at this
        exact this
      rw [if_neg (by simp [hnot])]
      have ih := pollLoop_timeout refChar payload tm tmm n
        (emitHeight (F64.mul cur (F64.ofRat 1000)) s1) hs1
      refine ⟨ih.1, ?_⟩
      rw [ih.2]
      simp only [emitHeight, writeCount_emit, Event.isWrite]
      simp
      omega
    · dsimp only
      have ih := pollLoop_timeout refChar payload tm tmm n s1 hs1
      refine ⟨ih.1, ?_⟩
      rw [ih.2]; omega

theorem Step.extends {P : Event → Prop} {s t : Sys} (h : Step P s t) : Extends s t := by
  obtain ⟨evs, ht, _⟩ := h.trace
  exact ⟨evs, ht⟩

theorem Extends.ext_trans {s t u : Sys} (h1 : Extends s t) (h2 : Extends t u) : Extends s u := by
  obtain ⟨e1, t1⟩ := h1
  obtain ⟨e2, t2⟩ := h2
  exact ⟨e2 ++ e1, by rw [t2, t1, List.append_assoc]⟩

theorem Extends.ext_refl (s : Sys) : Extends s s := ⟨[], rfl⟩

theorem Extends.ext_emit (e : Event) (s : Sys) : Extends s (emit e s) := ⟨[_], rfl⟩

theorem ErrorLogged.of_emitLog {s t : Sys} (h : Extends s t) (msg : LogMsg) :
    ErrorLogged s (emitLog .error msg t) := by
  obtain ⟨evs, ht⟩ := h
  exact ⟨t.app.isMoving, msg, evs, by simp [emitLog, emit, ht]⟩

theorem ErrorLogged.after {s t u : Sys} (h1 : Extends s t) (h2 : ErrorLogged t u) :
    ErrorLogged s u := by
  obtain ⟨e1, t1⟩ := h1
  obtain ⟨m, msg, e2, t2⟩ := h2
  exact ⟨m, msg, e2 ++ e1, by rw [t2, t1, List.append_assoc]⟩

theorem Step.silent {s t : Sys} (h : Step NotLog s t) : Silent s t := by
  obtain ⟨evs, ht, hp⟩ := h.trace
  exact ⟨evs, ht, fun o ho => (hp o ho).2⟩

/-! ## The moving flag -/

theorem commandAndPoll_moving (cmd ref : Characteristic) (tm tmm : F64) (s : Sys) :
    (commandAndPoll cmd ref tm tmm s).2.app.isMoving = false ∧
    ∃ post : List Obs, (commandAndPoll cmd ref tm tmm s).2.trace = post ++ s.trace ∧
      ∀ o ∈ post, o.moving = true := by
  unfold commandAndPoll
  have a : Step (fun _ => True) (setMoving true s)
      (charWrite cmd cmdStop (charWrite cmd cmdWakeup (setMoving true s))) :=
    (Step.emit (.write cmd cmdWakeup) _ trivial).then_emit (.write cmd cmdStop) trivial
  have b := a.trans (pollLoop_step ref (referencePayload (metersToRaw tm)) tm tmm s.world.ticks _)
  rcases hp : pollLoop ref (referencePayload (metersToRaw tm)) tm tmm s.world.ticks
    (charWrite cmd cmdStop (charWrite cmd cmdWakeup (setMoving true s))) with ⟨r, t⟩
  rw [hp] at b
  obtain ⟨evs, ht, hev⟩ := b.trace
  refine ⟨rfl, evs, ht, fun o ho => (hev o ho).1⟩

/-- C6. Starting with `isMoving` false, `isMoving` is false again when
`MoveToHeight` returns, whatever the path (range rejection, connection
failure, missing characteristic, already at target, arrival, timeout).  The
events of the call split into those before the commanding step, all recorded
with `isMoving` false and none of them a characteristic write, and those from
the commanding step on (the wakeup and stop writes, every poll tick's write,
read and height event, the final log), all recorded with `isMoving` true. -/
theorem moveToHeight_isMoving (x : F64) (s : Sys) (h : s.app.isMoving = false) :
    (MoveToHeight x s).2.app.isMoving = false ∧
    ∃ pre post : List Obs, (MoveToHeight x s).2.trace = post ++ (pre ++ s.trace) ∧
      (∀ o ∈ pre, o.moving = false ∧ o.ev.isWrite = false) ∧
      (∀ o ∈ post, o.moving = true) ∧
      (∀ o ∈ post ++ pre, o.ev.isWrite = true → o.moving = true) := by
  have key : ∀ t : Sys, Step NotWrite s t →
      t.app.isMoving = false ∧ ∃ pre post : List Obs, t.trace = post ++ (pre ++ s.trace) ∧
      (∀ o ∈ pre, o.moving = false ∧ o.ev.isWrite = false) ∧
      (∀ o ∈ post, o.moving = true) ∧
      (∀ o ∈ post ++ pre, o.ev.isWrite = true → o.moving = true) := by
    intro t ht
    obtain ⟨evs, he, hp⟩ := ht.trace
    refine ⟨ht.moving.trans h, evs, [], by simpa using he, ?_, by simp, ?_⟩
    · intro o ho; exact ⟨(hp o ho).1.trans h, (hp o ho).2⟩
    · intro o ho hw
      have := (hp o (by simpa using ho)).2
      unfold NotWrite at this
      rw [this] at hw; cases hw
  unfold MoveToHeight
  split_ifs with hr
  · exact key _ (Step.emit _ _ rfl)
  · have a := getOrConnectDesk_step s
    rcases h1 : getOrConnectDesk s with ⟨⟨dev, e1⟩, s1⟩
    rw [h1] at a
    rcases e1 with _ | e1
    · dsimp only
      have b := a.trans (findMoveCharacteristics_step dev s1)
      rcases h2 : findMoveCharacteristics dev s1 with ⟨⟨cmd, ref, e2⟩, s2⟩
      rw [h2] at b
      rcases e2 with _ | e2
      · dsimp only
        have c := b.trans (getHeightAndSpeed_step s2)
        rcases h3 : getHeightAndSpeed s2 with ⟨⟨cur, sp, e3⟩, s3⟩
        rw [h3] at c
        dsimp only
        split_ifs with hpre
        · exact key _ (c.then_emit _ rfl)
        · obtain ⟨hm, post, hpost, hall⟩ :=
            commandAndPoll_moving cmd ref (F64.div x (F64.ofRat 1000)) x s3
          obtain ⟨pre, hpre', hp⟩ := c.trace
          refine ⟨hm, pre, post, by rw [hpost, hpre'], ?_, hall, ?_⟩
          · intro o ho; exact ⟨(hp o ho).1.trans h, (hp o ho).2⟩
          · intro o ho hw
            rcases List.mem_append.1 ho with ho | ho
            · exact hall o ho
            · have := (hp o ho).2
              unfold NotWrite at this
              rw [this] at hw; cases hw
      · exact key _ (b.then_emit _ rfl)
    · exact key _ (a.then_emit _ rfl)

theorem moveToHeight_isMoving_witness :
    (MoveToHeight (F64.fin 700) (connectedSys [] 2)).2.app.isMoving = false :=
  (moveToHeight_isMoving (F64.fin 700) (connectedSys [] 2) rfl).1

/-! ## Timeout -/

/-- C7. Let the target be in range, the connection and the two control
characteristics be obtained, and the pre-check not short-circuit.  If no
pending telemetry reply decodes to a sample with `speed == 0` and
`|current - target| < 0.003` (in particular if none has speed 0), then
`MoveToHeight` returns the timeout error, and it does so only after every one
of the ticks delivered before the deadline has written the payload: the call
performs exactly two command writes plus one write per tick. -/
theorem moveToHeight_times_out (x : F64) (s s1 s2 s3 : Sys) (dev : Device)
    (cmd ref : Characteristic) (cur sp : F64) (err : Option Err)
    (hr : outOfRange (F64.div x (F64.ofRat 1000)) = false)
    (h1 : getOrConnectDesk s = ((dev, none), s1))
    (h2 : findMoveCharacteristics dev s1 = ((cmd, ref, none), s2))
    (h3 : getHeightAndSpeed s2 = ((cur, sp, err), s3))
    (h4 : (err.isNone && F64.lt (F64.abs (F64.sub cur (F64.div x (F64.ofRat 1000))))
      (F64.ofRat (2 / 1000))) = false)
    (h5 : ∀ reply, Except.ok reply ∈ s3.world.reads → 4 ≤ reply.n →
      arrived (sampleOf reply).1 (sampleOf reply).2 (F64.div x (F64.ofRat 1000)) = false) :
    (MoveToHeight x s).1 = some Err.timeout ∧
    writeCount (MoveToHeight x s).2.trace = writeCount s.trace + 2 + s.world.ticks := by
  have a := getOrConnectDesk_step s
  rw [h1] at a
  have b := a.trans (findMoveCharacteristics_step dev s1)
  rw [h2] at b
  have c := b.trans (getHeightAndSpeed_step s2)
  rw [h3] at c
  have hticks : s3.world.ticks = s.world.ticks := c.ticks
  have hcount : writeCount s3.trace = writeCount s.trace := c.writeCount_eq
  unfold MoveToHeight
  rw [if_neg (by simp [hr]), h1]
  dsimp only
  rw [h2]
  dsimp only
  rw [h3]
  dsimp only
  rw [if_neg (by simp only [h4]; simp)]
  unfold commandAndPoll
  have hp := pollLoop_timeout ref (referencePayload (metersToRaw (F64.div x (F64.ofRat 1000))))
    (F64.div x (F64.ofRat 1000)) x s3.world.ticks
    (charWrite cmd cmdStop (charWrite cmd cmdWakeup (setMoving true s3))) h5
  rcases hq : pollLoop ref (referencePayload (metersToRaw (F64.div x (F64.ofRat 1000))))
    (F64.div x (F64.ofRat 1000)) x s3.world.ticks
    (charWrite cmd cmdStop (charWrite cmd cmdWakeup (setMoving true s3))) with ⟨r, t⟩
  rw [hq] at hp
  refine ⟨hp.1, ?_⟩
  have hw : writeCount (charWrite cmd cmdStop (charWrite cmd cmdWakeup (setMoving true s3))).trace
      = writeCount s3.trace + 2 := by
    simp [charWrite, writeCount_emit, Event.isWrite, setMoving]
  have hfin : writeCount t.trace = writeCount
      (charWrite cmd cmdStop (charWrite cmd cmdWakeup (setMoving true s3))).trace
      + s3.world.ticks := hp.2
  show writeCount t.trace = _
  rw [hfin, hw, hcount, hticks]

/-! ## Errors and log events -/

theorem commandAndPoll_logged (cmd ref : Characteristic) (tm tmm : F64) (s : Sys) (e : Err)
    (h : (commandAndPoll cmd ref tm tmm s).1 = some e) :
    ErrorLogged s (commandAndPoll cmd ref tm tmm s).2 := by
  unfold commandAndPoll at h ⊢
  rcases hp : pollLoop ref (referencePayload (metersToRaw tm)) tm tmm s.world.ticks
    (charWrite cmd cmdStop (charWrite cmd cmdWakeup (setMoving true s))) with ⟨r, t⟩
  rw [hp] at h
  dsimp only at h ⊢
  have hp1 : (pollLoop ref (referencePayload (metersToRaw tm)) tm tmm s.world.ticks
    (charWrite cmd cmdStop (charWrite cmd cmdWakeup (setMoving true s)))).1 = some e := by
    rw [hp]; exact h
  obtain ⟨u, hu, hfin⟩ := pollLoop_error _ _ _ _ _ _ e hp1
  rw [hp] at hfin
  dsimp only at hfin
  have ext0 : Extends s (charWrite cmd cmdStop (charWrite cmd cmdWakeup (setMoving true s))) :=
    ⟨[_, _], rfl⟩
  have ext1 : Extends s u := ext0.ext_trans hu.extends
  obtain ⟨m, msg, evs, hl⟩ := ErrorLogged.of_emitLog ext1 .timeoutNotReached
  rw [← hfin] at hl
  exact ⟨m, msg, evs, hl⟩

theorem moveToHeight_logged (x : F64) (s : Sys) (e : Err) (h : (MoveToHeight x s).1 = some e) :
    ErrorLogged s (MoveToHeight x s).2 := by
  unfold MoveToHeight at h ⊢
  split_ifs at h ⊢ with hr
  · exact ErrorLogged.of_emitLog (Extends.ext_refl s) _
  · have a := getOrConnectDesk_step s
    rcases h1 : getOrConnectDesk s with ⟨⟨dev, e1⟩, s1⟩
    rw [h1] at a h
    rcases e1 with _ | e1
    · dsimp only at h ⊢
      have b := a.trans (findMoveCharacteristics_step dev s1)
      rcases h2 : findMoveCharacteristics dev s1 with ⟨⟨cmd, ref, e2⟩, s2⟩
      rw [h2] at b h
      rcases e2 with _ | e2
      · dsimp only at h ⊢
        have c := b.trans (getHeightAndSpeed_step s2)
        rcases h3 : getHeightAndSpeed s2 with ⟨⟨cur, sp, e3⟩, s3⟩
        rw [h3] at c h
        dsimp only at h ⊢
        split_ifs at h ⊢ with hpre
        exact ErrorLogged.after c.extends (commandAndPoll_logged _ _ _ _ _ e h)
      · exact ErrorLogged.of_emitLog b.extends _
    · exact ErrorLogged.of_emitLog a.extends _

theorem discoverServices_nolog (dev : Device) (s : Sys) :
    Step NotLog s (discoverServices dev s).2 := by
  unfold discoverServices
  have h0 := Step.emit (P := NotLog) (.discoverServices dev) s rfl
  cases hs : (Desk.emit (Event.discoverServices dev) s).world.discoveries with
  | nil => simpa [hs] using h0
  | cons r rest => simpa [hs] using (⟨h0.moving, h0.ticks, h0.reads, h0.trace⟩ :
      Step NotLog s
        { Desk.emit (Event.discoverServices dev) s with
          world := { (Desk.emit (Event.discoverServices dev) s).world with discoveries := rest } })

theorem charRead_nolog (c : Characteristic) (s : Sys) : Step NotLog s (charRead c s).2 := by
  unfold charRead
  have h0 := Step.emit (P := NotLog) (.read c) s rfl
  cases hs : (Desk.emit (Event.read c) s).world.reads with
  | nil => simpa [hs] using h0
  | cons r rest =>
    have hsuf : rest <:+ s.world.reads := by
      have : (Desk.emit (Event.read c) s).world.reads = s.world.reads := rfl
      rw [← this, hs]; exact List.suffix_cons r rest
    simpa [hs] using (⟨h0.moving, h0.ticks, hsuf, h0.trace⟩ :
      Step NotLog s
        { Desk.emit (Event.read c) s with
          world := { (Desk.emit (Event.read c) s).world with reads := rest } })

theorem heightLoop_nolog (dev : Device) : ∀ (svcs : List Service) (s : Sys),
    Step NotLog s (heightLoop dev svcs s).2
  | [], s => Step.refl _ _
  | svc :: rest, s => by
    unfold heightLoop
    have a := Step.emit (P := NotLog) (.discoverCharacteristics dev) s rfl
    cases hf : svc.chars.find? (fun ch => ch.uuid = uuidHeightStr) with
    | some ch => exact a
    | none => exact a.trans (heightLoop_nolog dev rest _)

theorem findHeightCharacteristic_nolog (dev : Device) (s : Sys) :
    Step NotLog s (findHeightCharacteristic dev s).2 := by
  unfold findHeightCharacteristic
  have a := discoverServices_nolog dev s
  rcases hres : discoverServices dev s with ⟨r, s1⟩
  rw [hres] at a
  rcases r with err | services
  · exact a
  · dsimp only
    have b := a.trans (heightLoop_nolog dev services s1)
    rcases hl : heightLoop dev services s1 with ⟨r2, s2⟩
    rw [hl] at b
    rcases r2 with _ | ch
    · exact b
    · exact b

/-- After its `getOrConnectDesk` call, `GetHeight` emits no log event,
whatever it returns. -/
theorem GetHeight_silent (s : Sys) : Silent (getOrConnectDesk s).2 (GetHeight s).2 := by
  unfold GetHeight
  rcases h1 : getOrConnectDesk s with ⟨⟨dev, e1⟩, s1⟩
  rcases e1 with _ | e1
  · dsimp only
    have b := findHeightCharacteristic_nolog dev s1
    rcases h2 : findHeightCharacteristic dev s1 with ⟨⟨ch, e2⟩, s2⟩
    rw [h2] at b
    rcases e2 with _ | e2
    · dsimp only
      have c := b.trans (charRead_nolog ch s2)
      rcases h3 : charRead ch s2 with ⟨r, s3⟩
      rw [h3] at c
      rcases r with err | reply
      · exact c.silent
      · dsimp only
        split_ifs <;> exact c.silent
    · exact b.silent
  · exact (Step.refl NotLog s1).silent

/-- C10 (amended). Every execution of `MoveToHeight` or `MoveByStep` that
returns an error emits a log event of level ERROR as its last event before
returning.  `GetHeight` emits no log event of its own: whatever it returns,
the events it adds after its `getOrConnectDesk` call contain no log event,
and when a handle is cached the whole execution adds no log event, so every
error it then returns (service discovery, missing characteristic, read
failure, short payload) is returned without a log. -/
theorem move_errors_are_logged :
    (∀ (x : F64) (s : Sys) (e : Err), (MoveToHeight x s).1 = some e →
      ErrorLogged s (MoveToHeight x s).2) ∧
    (∀ (up : Bool) (s : Sys) (e : Err), (MoveByStep up s).1 = some e →
      ErrorLogged s (MoveByStep up s).2) ∧
    (∀ s : Sys, Silent (getOrConnectDesk s).2 (GetHeight s).2) ∧
    (∀ s : Sys, s.app.haveDesk = true → Silent s (GetHeight s).2) := by
  refine ⟨moveToHeight_logged, ?_, GetHeight_silent, ?_⟩
  · intro up s e h
    unfold MoveByStep at h ⊢
    have a := GetHeight_step s
    rcases hg : GetHeight s with ⟨⟨cur, e1⟩, s1⟩
    rw [hg] at a h
    rcases e1 with _ | e1
    · dsimp only at h ⊢
      exact ErrorLogged.after (a.extends.ext_trans (Extends.ext_emit _ _))
        (moveToHeight_logged _ _ e h)
    · exact ErrorLogged.of_emitLog a.extends _
  · intro s hs
    have h0 : (getOrConnectDesk s).2 = s := by
      unfold getOrConnectDesk; rw [if_pos hs]
    have := GetHeight_silent s
    rw [h0] at this
    exact this

theorem move_errors_are_logged_witness :
    ErrorLogged idleSys (MoveByStep true idleSys).2 ∧
    Silent (connectedSys [] 0) (GetHeight (connectedSys [] 0)).2 :=
  ⟨move_errors_are_logged.2.1 true idleSys (Err.scanFailed (Err.transport 0)) rfl,
    move_errors_are_logged.2.2.2 (connectedSys [] 0) rfl⟩

/-- C10 (counterexample). With a handle cached and no telemetry reply in
reach, `GetHeight` returns the transport error of the failed read, and the
three events of that execution are Bluetooth calls: no log event is emitted. -/
theorem getHeight_error_not_logged :
    (GetHeight (connectedSys [] 0)).1.2 = some (Err.transport 0) ∧
    ¬ Logged (connectedSys [] 0) (GetHeight (connectedSys [] 0)).2 := by
  refine ⟨rfl, ?_⟩
  rintro ⟨evs, ht, o, ho, hl⟩
  have htr : (GetHeight (connectedSys [] 0)).2.trace =
      [{ moving := false, ev := .read heightChar },
       { moving := false, ev := .discoverCharacteristics { handle := 5 } },
       { moving := false, ev := .discoverServices { handle := 5 } }] := rfl
  rw [htr] at ht
  have he : evs = [{ moving := false, ev := .read heightChar },
       { moving := false, ev := .discoverCharacteristics { handle := 5 } },
       { moving := false, ev := .discoverServices { handle := 5 } }] := by
    have h0 : (connectedSys [] 0).trace = [] := rfl
    rw [h0, List.append_nil] at ht
    exact ht.symm
  subst he
  simp only [List.mem_cons, List.mem_singleton, List.not_mem_nil, or_false] at ho
  rcases ho with rfl | rfl | rfl <;> simp [Event.isLog] at hl

/-! ## The timeout at a concrete environment -/

theorem outOfRange_700 : outOfRange (F64.div (F64.fin 700) (F64.ofRat 1000)) = false := by
  unfold outOfRange
  rw [ofRat_1000, ofRat_minHeightMeters, ofRat_maxHeightMeters,
    show F64.div (F64.fin 700) (F64.fin 1000)
      = F64.fin (3152519739159347 / 4503599627370496) from by decide!]
  decide!

theorem speed_16_ne_zero :
    F64.eq (F64.div (F64.ofInt (decodeRawSpeed 0x10 0x00)) (F64.ofRat 10000)) (F64.fin 0)
      = false := by
  rw [show decodeRawSpeed 0x10 0x00 = 16 from by decide, ofRat_10000,
    show F64.ofInt 16 = F64.fin 16 from by decide!,
    show F64.div (F64.fin 16) (F64.fin 10000)
      = F64.fin (7378697629483821 / 4611686018427387904) from by decide!]
  decide!

theorem moveToHeight_times_out_witness :
    (MoveToHeight (F64.fin 700)
        (connectedSys [.ok ⟨3, 0, 0, 0, 0⟩, .ok ⟨4, 0x20, 0x03, 0x10, 0x00⟩] 1)).1
      = some Err.timeout ∧
    writeCount (MoveToHeight (F64.fin 700)
        (connectedSys [.ok ⟨3, 0, 0, 0, 0⟩, .ok ⟨4, 0x20, 0x03, 0x10, 0x00⟩] 1)).2.trace
      = writeCount (connectedSys [.ok ⟨3, 0, 0, 0, 0⟩, .ok ⟨4, 0x20, 0x03, 0x10, 0x00⟩] 1).trace
        + 2
        + (connectedSys [.ok ⟨3, 0, 0, 0, 0⟩, .ok ⟨4, 0x20, 0x03, 0x10, 0x00⟩] 1).world.ticks :=
  moveToHeight_times_out (F64.fin 700)
    (connectedSys [.ok ⟨3, 0, 0, 0, 0⟩, .ok ⟨4, 0x20, 0x03, 0x10, 0x00⟩] 1) _ _ _
    { handle := 5 } moveChar referenceChar (F64.fin 0) (F64.fin 0) (some (Err.invalidPayload 3))
    outOfRange_700 rfl rfl rfl rfl
    (by
      intro reply hm _
      have hreads : Except.ok reply ∈ [(Except.ok ⟨4, 0x20, 0x03, 0x10, 0x00⟩ :
          Except Err ReadReply)] := hm
      simp only [List.mem_singleton, Except.ok.injEq] at hreads
      subst hreads
      unfold arrived sampleOf
      rw [speed_16_ne_zero]
      rfl)

/-! ## Step moves -/

theorem ofRat_between {q lo hi : ℚ} (hlo : roundQ lo = lo) (hhi : roundQ hi = hi)
    (h1 : lo ≤ q) (h2 : q ≤ hi) (b1 : -(2:ℚ) ^ 1024 < lo) (b2 : hi < (2:ℚ) ^ 1024) :
    F64.ofRat q = F64.fin (roundQ q) ∧ lo ≤ roundQ q ∧ roundQ q ≤ hi := by
  have l : lo ≤ roundQ q := by rw [← hlo]; exact roundQ_mono h1
  have u : roundQ q ≤ hi := by rw [← hhi]; exact roundQ_mono h2
  refine ⟨?_, l, u⟩
  unfold F64.ofRat
  rw [if_neg (by linarith), if_neg (by linarith)]

theorem roundQ_zero : roundQ 0 = 0 := by decide!

theorem heightMM_bounds (b0 b1 : Byte) :
    ∃ q : ℚ, F64.mul (rawToMeters (decodeRawHeight b0 b1)) (F64.ofRat 1000) = F64.fin q ∧
      0 ≤ q ∧ q ≤ 8000 := by
  have hb0 := b0.isLt
  have hb1 := b1.isLt
  have hraw0 : (0:ℚ) ≤ ((decodeRawHeight b0 b1 : ℤ) : ℚ) := by
    rw [decodeRawHeight_eq]; push_cast; positivity
  have hraw1 : ((decodeRawHeight b0 b1 : ℤ) : ℚ) ≤ 65536 := by
    rw [decodeRawHeight_eq]; push_cast
    have h0 : ((b0.val : ℕ) : ℚ) ≤ 255 := by exact_mod_cast (by omega : b0.val ≤ 255)
    have h1 : ((b1.val : ℕ) : ℚ) ≤ 255 := by exact_mod_cast (by omega : b1.val ≤ 255)
    linarith
  obtain ⟨e0, l0, u0⟩ := ofRat_between roundQ_zero (by decide! : roundQ 65536 = 65536)
    hraw0 hraw1 (by norm_num) (by norm_num)
  obtain ⟨e1, l1, u1⟩ := ofRat_between (q := roundQ (decodeRawHeight b0 b1 : ℤ) / 10000)
    roundQ_zero (by decide! : roundQ 7 = 7)
    (by positivity) (by linarith) (by norm_num) (by norm_num)
  obtain ⟨e2, l2, u2⟩ := ofRat_between
    (q := roundQ (roundQ (decodeRawHeight b0 b1 : ℤ) / 10000) + f64Min)
    roundQ_zero (by decide! : roundQ 8 = 8)
    (by unfold f64Min; positivity) (by unfold f64Min; linarith) (by norm_num) (by norm_num)
  obtain ⟨e3, l3, u3⟩ := ofRat_between
    (q := roundQ (roundQ (roundQ (decodeRawHeight b0 b1 : ℤ) / 10000) + f64Min) * 1000)
    roundQ_zero (by decide! : roundQ 8000 = 8000)
    (by positivity) (by linarith) (by norm_num) (by norm_num)
  refine ⟨_, ?_, l3, u3⟩
  unfold rawToMeters F64.ofInt
  rw [ofRat_10000, ofRat_minHeightMeters, ofRat_1000, e0]
  simp only [F64.div, show (10000:ℚ) ≠ 0 by norm_num, if_false]
  rw [e1]
  simp only [F64.add]
  rw [e2]
  simp only [F64.mul]
  rw [e3]

theorem GetHeight_finite {s s1 : Sys} {h : F64} (hget : GetHeight s = ((h, none), s1)) :
    ∃ q : ℚ, h = F64.fin q ∧ 0 ≤ q ∧ q ≤ 8000 := by
  unfold GetHeight at hget
  rcases h1 : getOrConnectDesk s with ⟨⟨dev, e1⟩, t1⟩
  rw [h1] at hget
  rcases e1 with _ | e1
  · dsimp only at hget
    rcases h2 : findHeightCharacteristic dev t1 with ⟨⟨ch, e2⟩, t2⟩
    rw [h2] at hget
    rcases e2 with _ | e2
    · dsimp only at hget
      rcases h3 : charRead ch t2 with ⟨r, t3⟩
      rw [h3] at hget
      rcases r with err | reply
      · simp at hget
      · dsimp only at hget
        by_cases hn : reply.n < 2
        · rw [if_pos hn] at hget; simp at hget
        · rw [if_neg hn] at hget
          simp only [Prod.mk.injEq] at hget
          obtain ⟨q, hq, hb⟩ := heightMM_bounds reply.b0 reply.b1
          exact ⟨q, by rw [← hget.1.1, hq], hb⟩
    · simp at hget
  · simp at hget

theorem stepTarget_fin (q : ℚ) (h0 : 0 ≤ q) (h1 : q ≤ 8000) (up : Bool) :
    stepTarget (F64.fin q) up
      = F64.fin (min (max (roundQ (if up then q + 10 else q - 10)) 620) 1270) := by
  have hstep : F64.ofRat heightStepMM = F64.fin 10 := by decide!
  have hmin : F64.ofRat (minHeightMeters * 1000) = F64.fin 620 := by decide!
  have hmax : F64.ofRat (maxHeightMeters * 1000) = F64.fin 1270 := by decide!
  have hsum : (if up then F64.add (F64.fin q) (F64.ofRat heightStepMM)
      else F64.sub (F64.fin q) (F64.ofRat heightStepMM))
      = F64.fin (roundQ (if up then q + 10 else q - 10)) := by
    rw [hstep]
    cases up with
    | true =>
      simp only [F64.add, if_true]
      exact (ofRat_between (by decide! : roundQ 0 = 0) (by decide! : roundQ 8192 = 8192)
        (by linarith) (by linarith) (by norm_num) (by norm_num)).1
    | false =>
      simp only [F64.sub, F64.neg, F64.add, Bool.false_eq_true, if_false, ← sub_eq_add_neg]
      exact (ofRat_between (by decide! : roundQ (-10) = -10) (by decide! : roundQ 8192 = 8192)
        (by linarith) (by linarith) (by norm_num) (by norm_num)).1
  unfold stepTarget
  simp only [hsum, hmin, hmax, F64.lt]
  by_cases c1 : roundQ (if up then q + 10 else q - 10) < 620
  · simp only [c1, decide_True, if_true]
    rw [max_eq_right c1.le, min_eq_left (by norm_num)]
    norm_num
  · simp only [c1, decide_False, Bool.false_eq_true, if_false]
    rw [max_eq_left (not_lt.mp c1)]
    by_cases c2 : 1270 < roundQ (if up then q + 10 else q - 10)
    · simp only [c2, decide_True, if_true]
      rw [min_eq_right c2.le]
    · simp only [c2, decide_False, Bool.false_eq_true, if_false]
      rw [min_eq_left (not_lt.mp c2)]

/-- C4. When the height read succeeds with value `h` (a finite `float64`),
`MoveByStep` logs and then calls `MoveToHeight` with the target
`min(max(h + 10, 620), 1270)` when `up` is true and `min(max(h - 10, 620), 1270)`
when it is false, the sum being the `float64` sum; the target therefore lies
in [620, 1270].  At `h = 1265` with `up` true the target is 1270. -/
theorem moveByStep_target (up : Bool) (s s1 : Sys) (h : F64)
    (hget : GetHeight s = ((h, none), s1)) :
    MoveByStep up s
      = MoveToHeight (stepTarget h up) (emitLog .info (.moving up (stepTarget h up)) s1) ∧
    (∃ q : ℚ, h = F64.fin q ∧
      stepTarget h up
        = F64.fin (min (max (roundQ (if up then q + 10 else q - 10)) 620) 1270) ∧
      620 ≤ min (max (roundQ (if up then q + 10 else q - 10)) 620) 1270 ∧
      min (max (roundQ (if up then q + 10 else q - 10)) 620) 1270 ≤ 1270) ∧
    stepTarget (F64.fin 1265) true = F64.fin 1270 := by
  refine ⟨?_, ?_, ?_⟩
  · unfold MoveByStep
    rw [hget]
  · obtain ⟨q, hq, h0, h1⟩ := GetHeight_finite hget
    refine ⟨q, hq, ?_, ?_, ?_⟩
    · rw [hq]; exact stepTarget_fin q h0 h1 up
    · exact le_min (le_max_right _ _) (by norm_num)
    · exact min_le_right _ _
  · rw [stepTarget_fin 1265 (by norm_num) (by norm_num) true]
    simp only [if_true]
    rw [show (1265:ℚ) + 10 = 1275 by norm_num, show roundQ 1275 = 1275 from by decide!,
      max_eq_left (by norm_num), min_eq_right (by norm_num)]

theorem moveByStep_target_witness :
    MoveByStep true (connectedSys [.ok ⟨4, 0x32, 0x19, 0, 0⟩] 0)
      = MoveToHeight
          (stepTarget (F64.mul (rawToMeters (decodeRawHeight 0x32 0x19)) (F64.ofRat 1000)) true)
          (emitLog .info (.moving true
            (stepTarget (F64.mul (rawToMeters (decodeRawHeight 0x32 0x19)) (F64.ofRat 1000)) true))
            (GetHeight (connectedSys [.ok ⟨4, 0x32, 0x19, 0, 0⟩] 0)).2) :=
  (moveByStep_target true (connectedSys [.ok ⟨4, 0x32, 0x19, 0, 0⟩] 0) _
    (F64.mul (rawToMeters (decodeRawHeight 0x32 0x19)) (F64.ofRat 1000)) rfl).1

end Desk
